import Mathlib

/-!
Verification of the conversation-normalization pipeline of the
AI-Dialogue-Insight browser extension: a shallow embedding of the
JavaScript CSV encoder, the per-platform message normalizers and the
metadata extractors, together with proofs about them.

JavaScript values are modelled by the inductive type `JSValue`
(numbers are modelled as integers, which covers every numeric value the
claims touch).  A JavaScript computation that can raise a `TypeError`
(property access on `null`/`undefined`) is modelled in `Option`, with
`none` standing for a thrown exception.
-/

set_option maxRecDepth 10000

namespace AIDE

/-- Model of a JavaScript (JSON-like) runtime value. -/
inductive JSValue where
  | null
  | undef
  | bool (b : Bool)
  | num (n : Int)
  | str (s : String)
  | arr (elems : List JSValue)
  | obj (fields : List (String × JSValue))
  deriving Repr

mutual

/-- Boolean (structural) equality on `JSValue`; this is also the
JavaScript strict equality `===` on the values the source compares
(primitives compared with string literals). -/
def JSValue.beq : JSValue → JSValue → Bool
  | .null, .null => true
  | .undef, .undef => true
  | .bool a, .bool b => a == b
  | .num a, .num b => a == b
  | .str a, .str b => a == b
  | .arr a, .arr b => JSValue.beqList a b
  | .obj a, .obj b => JSValue.beqFields a b
  | _, _ => false

/-- Elementwise equality on value lists. -/
def JSValue.beqList : List JSValue → List JSValue → Bool
  | [], [] => true
  | x :: xs, y :: ys => JSValue.beq x y && JSValue.beqList xs ys
  | _, _ => false

/-- Elementwise equality on field lists. -/
def JSValue.beqFields : List (String × JSValue) → List (String × JSValue) → Bool
  | [], [] => true
  | (k, v) :: xs, (l, w) :: ys =>
      k == l && JSValue.beq v w && JSValue.beqFields xs ys
  | _, _ => false

end

mutual

theorem JSValue.beq_iff : ∀ (a b : JSValue), (JSValue.beq a b = true) ↔ a = b
  | .null, b => by cases b <;> simp [JSValue.beq]
  | .undef, b => by cases b <;> simp [JSValue.beq]
  | .bool x, b => by cases b <;> simp [JSValue.beq]
  | .num x, b => by cases b <;> simp [JSValue.beq]
  | .str x, b => by cases b <;> simp [JSValue.beq]
  | .arr xs, b => by
      cases b <;> simp [JSValue.beq]
      exact JSValue.beqList_iff xs _
  | .obj fs, b => by
      cases b <;> simp [JSValue.beq]
      exact JSValue.beqFields_iff fs _

theorem JSValue.beqList_iff :
    ∀ (a b : List JSValue), (JSValue.beqList a b = true) ↔ a = b
  | [], b => by cases b <;> simp [JSValue.beqList]
  | x :: xs, [] => by simp [JSValue.beqList]
  | x :: xs, y :: ys => by
      simp [JSValue.beqList, JSValue.beq_iff x y, JSValue.beqList_iff xs ys]

theorem JSValue.beqFields_iff :
    ∀ (a b : List (String × JSValue)), (JSValue.beqFields a b = true) ↔ a = b
  | [], b => by cases b <;> simp [JSValue.beqFields]
  | x :: xs, [] => by simp [JSValue.beqFields]
  | (k, v) :: xs, (l, w) :: ys => by
      simp [JSValue.beqFields, JSValue.beq_iff v w, JSValue.beqFields_iff xs ys,
        and_assoc]

end

instance : DecidableEq JSValue :=
  fun a b => decidable_of_iff _ (JSValue.beq_iff a b)

/-- JavaScript truthiness: `null`, `undefined`, `false`, `0` and the
empty string are falsy; arrays and objects are always truthy. -/
def jsTruthy : JSValue → Bool
  | .null => false
  | .undef => false
  | .bool b => b
  | .num n => n != 0
  | .str s => s != ""
  | .arr _ => true
  | .obj _ => true

/-- First binding of a key in an object field list. -/
def lookupField : List (String × JSValue) → String → JSValue
  | [], _ => .undef
  | (k, v) :: rest, key => if k = key then v else lookupField rest key

/-- Total property access `v[k]` for a base value on which JavaScript
does not throw: objects yield the bound value or `undefined`; primitives
and arrays yield `undefined` for the (non-index) property names the
source accesses.  Access on `null`/`undefined` is meaningless here and
is mapped to `undefined`; use `getProp` where the source can throw. -/
def propOn (v : JSValue) (k : String) : JSValue :=
  match v with
  | .obj fields => lookupField fields k
  | _ => (.undef)

/-- Property access that models the `TypeError` thrown when the base is
`null` or `undefined`: `none` is the thrown exception. -/
def getProp (v : JSValue) (k : String) : Option JSValue :=
  match v with
  | .null => none
  | .undef => none
  | _ => some (propOn v k)

/-- Optional chaining `v?.k`. -/
def optChain (v : JSValue) (k : String) : JSValue :=
  match v with
  | .null => .undef
  | .undef => .undef
  | _ => propOn v k

/-- JavaScript `a || b`. -/
def jsOr (a b : JSValue) : JSValue := if jsTruthy a then a else b

/-- `Array.isArray`. -/
def isArr : JSValue → Bool
  | .arr _ => true
  | _ => false

/-- `typeof v === "string"`. -/
def isStr : JSValue → Bool
  | .str _ => true
  | _ => false

/-- The double-quote character. -/
def qc : Char := Char.ofNat 34

/-- The apostrophe character (single quote). -/
def apc : Char := Char.ofNat 39

/-- The apostrophe as a one-character string. -/
def apostrophe : String := String.mk [apc]

/-- `Array.prototype.join` on a list of strings (also the semantics of
`String.intercalate`): elements joined by the separator. -/
def joinSep (sep : String) : List String → String
  | [] => ""
  | [x] => x
  | x :: xs => x ++ sep ++ joinSep sep xs

mutual

/-- `String(v)`: the JavaScript string conversion.  Arrays stringify as
their elements joined with commas; plain objects as the usual
`[object Object]` tag. -/
def jsToString : JSValue → String
  | .null => "null"
  | .undef => "undefined"
  | .bool b => if b then "true" else "false"
  | .num n => toString n
  | .str s => s
  | .arr elems => joinSep "," (jsToStringList elems)
  | .obj _ => "[object Object]"

/-- Stringification of array elements for `join` and `toString`:
`null` and `undefined` elements become the empty string. -/
def jsToStringList : List JSValue → List String
  | [] => []
  | .null :: vs => "" :: jsToStringList vs
  | .undef :: vs => "" :: jsToStringList vs
  | v :: vs => jsToString v :: jsToStringList vs

end

/-- `Array.prototype.join` semantics for a single element:
`null` and `undefined` become the empty string. -/
def joinElemStr : JSValue → String
  | .null => ""
  | .undef => ""
  | v => jsToString v

/-- `typeof v`. -/
def jsTypeof : JSValue → String
  | .null => "object"
  | .undef => "undefined"
  | .bool _ => "boolean"
  | .num _ => "number"
  | .str _ => "string"
  | .arr _ => "object"
  | .obj _ => "object"

/-- A row of a CSV table: a JavaScript object in insertion order. -/
abbrev Row := List (String × JSValue)

/-- The dangerous leading characters neutralized by the background
CSV encoder (see `Background.escapeCSVField`). -/
def dangerousChars : List Char := ['=', '+', '-', '@', '\t', '\r']

/-- Whether the string begins with one of `dangerousChars`
(`dangerousChars.some(ch => s.startsWith(ch))`). -/
def dangerousStart (s : String) : Bool :=
  match s.data with
  | [] => false
  | c :: _ => dangerousChars.contains c

/-- `s.replace(/"/g, ...)` doubling every double quote. -/
def escQuotes (cs : List Char) : List Char :=
  cs.flatMap (fun c => if c = qc then [qc, qc] else [c])

/-- Wrapping of a field in double quotes with inner quotes doubled
(the RFC 4180 quoted form). -/
def quoteWrap (s : String) : String :=
  String.mk (qc :: (escQuotes s.data ++ [qc]))

/-- JSON string escaping for one character.  The source uses
`JSON.stringify` only to measure payload size; the rare control
characters that stringify as unicode escapes are not modelled. -/
def jsonEscapeChar (c : Char) : List Char :=
  if c = qc then ['\\', qc]
  else if c = '\\' then ['\\', '\\']
  else if c = '\n' then ['\\', 'n']
  else if c = '\r' then ['\\', 'r']
  else if c = '\t' then ['\\', 't']
  else [c]

/-- A JSON string literal. -/
def jsonQuote (s : String) : String :=
  String.mk (qc :: (s.data.flatMap jsonEscapeChar ++ [qc]))

mutual

/-- `JSON.stringify` (called by the validator only on non-null objects;
a top-level `undefined`, which stringifies to no value at all, is not
reachable there and is mapped to the string `null`). -/
def jsonStringify : JSValue → String
  | .null => "null"
  | .undef => "null"
  | .bool b => if b then "true" else "false"
  | .num n => toString n
  | .str s => jsonQuote s
  | .arr elems => "[" ++ joinSep "," (jsonStringifyArr elems) ++ "]"
  | .obj fields => "\x7b" ++ joinSep "," (jsonStringifyObj fields) ++ "\x7d"

/-- Array elements (`undefined` elements stringify as `null`). -/
def jsonStringifyArr : List JSValue → List String
  | [] => []
  | v :: vs => jsonStringify v :: jsonStringifyArr vs

/-- Object members; fields holding `undefined` are omitted. -/
def jsonStringifyObj : List (String × JSValue) → List String
  | [] => []
  | (_, .undef) :: fs => jsonStringifyObj fs
  | (k, v) :: fs => (jsonQuote k ++ ":" ++ jsonStringify v) :: jsonStringifyObj fs

end

/-!
## The main background script (platform router)

Embedding of the CSV utilities, the Claude platform handler and the
payload validator of the background script.
-/

namespace Background

/-- `escapeCSVField` of the background script: RFC 4180 escaping with
CSV-injection neutralization.  A value whose string form begins with a
dangerous character is prefixed with an apostrophe; the result is then
quoted when it contains a comma, double quote, newline or carriage
return. -/
def escapeCSVField (value : JSValue) : String :=
  match value with
  | .null => ""
  | .undef => ""
  | v =>
    let s0 := jsToString v
    let s1 := if dangerousStart s0 then apostrophe ++ s0 else s0
    if s1.data.contains ',' || s1.data.contains qc ||
        s1.data.contains '\n' || s1.data.contains '\r' then
      quoteWrap s1
    else s1

/-- `generateCSV(data, headers)` of the background script: empty input
gives the empty string; otherwise the headers default to the keys of the
first row, a header row is emitted, and every row serializes the header
keys (missing keys are `undefined` and serialize to the empty string). -/
def generateCSV (data : List Row) (headers : Option (List String)) : String :=
  match data with
  | [] => ""
  | r0 :: _ =>
    let hs := match headers with
      | some h => h
      | none => r0.map Prod.fst
    let headerRow := joinSep "," (hs.map (fun h => escapeCSVField (.str h)))
    joinSep "\n"
      (headerRow ::
        data.map (fun r => joinSep "," (hs.map (fun h => escapeCSVField (lookupField r h)))))

namespace ClaudeHandler

/-- `ClaudeHandler.extractTextFromContent`: the text of the blocks of
type `text`, joined with blank lines.  Non-array content gives the
empty string; the guarded block accesses cannot throw. -/
def extractTextFromContent (content : JSValue) : String :=
  match content with
  | .arr blocks =>
      joinSep "\n\n"
        ((blocks.filter (fun b => jsTruthy b && (propOn b "type" == JSValue.str "text"))).map
          (fun b => joinElemStr (jsOr (propOn b "text") (.str ""))))
  | _ => ""

/-- The body of the per-message `try` block of
`ClaudeHandler.flattenConversationData`: `none` models a thrown
`TypeError` (the only throwing access is `msg.content` on a
`null`/`undefined` message). -/
def messageRow (conversationId conversationName msg : JSValue) : Option Row := do
  let content ← getProp msg "content"
  let text := extractTextFromContent content
  pure [("conversation_id", conversationId),
        ("conversation_name", conversationName),
        ("message_id", jsOr (propOn msg "uuid") (.str "")),
        ("parent_message_id", jsOr (propOn msg "parent_message_uuid") (.str "")),
        ("sender", jsOr (propOn msg "sender") (.str "")),
        ("text", .str text),
        ("created_at", jsOr (propOn msg "created_at") (.str "")),
        ("updated_at", jsOr (propOn msg "updated_at") (.str "")),
        ("index", if propOn msg "index" == JSValue.undef then .str "" else propOn msg "index"),
        ("truncated", jsOr (propOn msg "truncated") (.bool false)),
        ("stop_reason", jsOr (propOn msg "stop_reason") (.str ""))]

/-- `ClaudeHandler.flattenConversationData`: one row per message of
`chat_messages`; a message whose processing throws is caught, logged and
skipped (`filterMap`), and invalid conversation data gives no rows. -/
def flattenConversationData (convJson : JSValue) : List Row :=
  if !jsTruthy convJson then []
  else
    match propOn convJson "chat_messages" with
    | .arr messages =>
        let conversationId := jsOr (propOn convJson "uuid") (.str "")
        let conversationName := jsOr (propOn convJson "name") (.str "")
        messages.filterMap (messageRow conversationId conversationName)
    | _ => []

end ClaudeHandler

namespace CopilotHandler

/-- `CopilotHandler.extractTextFromContent`: the text of the truthy
parts of type `text`, joined with blank lines.  Falsy or non-array
content gives the empty string; the guarded part accesses cannot
throw. -/
def extractTextFromContent (content : JSValue) : String :=
  match content with
  | .arr parts =>
      joinSep "\n\n"
        ((parts.filter (fun p => jsTruthy p && (propOn p "type" == JSValue.str "text"))).map
          (fun p => joinElemStr (jsOr (propOn p "text") (.str ""))))
  | _ => ""

/-- The `part_ids` computation
`result.content?.filter(...).map(part => part.partId || ...).join(...)`:
optional chaining passes `null`/`undefined` through as `undefined`, an
array yields the joined part ids, and any other truthy value throws
(`filter` is not a function on it), modeled as `none`. -/
def partIds (content : JSValue) : Option JSValue :=
  match content with
  | .null => some JSValue.undef
  | .undef => some JSValue.undef
  | .arr parts =>
      some (JSValue.str (joinSep ","
        ((parts.filter (fun p => jsTruthy p && (propOn p "type" == JSValue.str "text"))).map
          (fun p => joinElemStr (jsOr (propOn p "partId") (.str ""))))))
  | _ => none

/-- The body of the per-result `try` block of
`CopilotHandler.flattenConversationData`: `none` models a thrown
`TypeError` (`result.content` on a `null`/`undefined` result, or
`.filter` on a truthy non-array content). -/
def resultRow (conversationId result : JSValue) : Option Row := do
  let content ← getProp result "content"
  let text := extractTextFromContent content
  let authorType := jsOr (optChain (propOn result "author") "type") (.str "")
  let role := if authorType == JSValue.str "human" then JSValue.str "user"
    else if authorType == JSValue.str "ai" then JSValue.str "assistant"
    else authorType
  let pids ← partIds content
  pure [("conversation_id", conversationId),
        ("message_id", jsOr (propOn result "id") (.str "")),
        ("role", role),
        ("text", .str text),
        ("created_at", jsOr (propOn result "createdAt") (.str "")),
        ("channel", jsOr (propOn result "channel") (.str "")),
        ("mode", jsOr (propOn result "mode") (.str "")),
        ("part_ids", jsOr pids (.str "")),
        ("author_type", authorType)]

/-- `CopilotHandler.flattenConversationData`: one row per element of
`results`; a result whose processing throws is caught, logged and
skipped (`filterMap`), and invalid conversation data gives no rows. -/
def flattenConversationData (convJson : JSValue) : List Row :=
  if !jsTruthy convJson then []
  else
    match propOn convJson "results" with
    | .arr results =>
        let conversationId := jsOr (propOn convJson "conversationId") (.str "")
        results.filterMap (resultRow conversationId)
    | _ => []

end CopilotHandler

/-- Result record of `validateConversationData`.  The source puts the
human-readable message in `error`; the oversized-payload message
interpolates the measured size and is elided to its fixed prefix. -/
structure ValidationResult where
  isValid : Bool
  error : Option String
  deriving DecidableEq, Repr

/-- The 50MB payload bound of the validator. -/
def MAX_PAYLOAD_SIZE : Nat := 50 * 1024 * 1024

/-- `validateConversationData(data, platform)`: type check, serialized
size bound, then platform-specific structure checks. -/
def validateConversationData (data : JSValue) (platform : String) : ValidationResult :=
  if !jsTruthy data || !(jsTypeof data == "object") then
    ⟨false, some "Data is not an object"⟩
  else if (jsonStringify data).length > MAX_PAYLOAD_SIZE then
    ⟨false, some "Payload too large"⟩
  else if platform = "chatgpt" then
    if !jsTruthy (propOn data "mapping") && !jsTruthy (propOn data "conversation_id") then
      ⟨false, some "ChatGPT data missing required fields (mapping or conversation_id)"⟩
    else if jsTruthy (propOn data "mapping") &&
        !(jsTypeof (propOn data "mapping") == "object") then
      ⟨false, some "ChatGPT mapping is not an object"⟩
    else ⟨true, none⟩
  else if platform = "claude" then
    match propOn data "chat_messages" with
    | .arr [] => ⟨false, some "Claude chat_messages array is empty"⟩
    | .arr _ => ⟨true, none⟩
    | _ => ⟨false, some "Claude data missing required chat_messages array"⟩
  else if platform = "copilot" then
    match propOn data "results" with
    | .arr [] => ⟨false, some "Copilot results array is empty"⟩
    | .arr _ => ⟨true, none⟩
    | _ => ⟨false, some "Copilot data missing required results array"⟩
  else ⟨true, none⟩

end Background

/-!
## The ChatGPT extractor module

Embedding of the ChatGPT conversation extractor: content-text
extraction, metadata aggregation (counts, user profile/instructions),
message extraction over the node mapping, and the two CSV generators.
-/

/-- Enumerable own entries visited by a `for (const k in v)` loop:
object fields in insertion order, array and string elements under their
index keys, nothing for the other values. -/
def entriesForIn : JSValue → List (String × JSValue)
  | .obj fields => fields
  | .arr elems => elems.enum.map (fun p => (toString p.1, p.2))
  | .str s => s.data.enum.map (fun p => (toString p.1, JSValue.str (String.mk [p.2])))
  | _ => []

/-- Whitespace for `trim` and the `\s` regex class (ASCII part). -/
def isWS (c : Char) : Bool :=
  c = ' ' || c = '\t' || c = '\n' || c = '\r' || c = Char.ofNat 12 || c = Char.ofNat 11

/-- `String.prototype.trim`. -/
def jsTrimStr (s : String) : String :=
  String.mk (((s.data.dropWhile isWS).reverse.dropWhile isWS).reverse)

/-- `v.trim()` as a JavaScript call: only strings have `trim`; calling
it on another value throws. -/
def jsTrim : JSValue → Option String
  | .str s => some (jsTrimStr s)
  | _ => none

/-- The triple-backtick code-fence delimiter of the context regexes. -/
def fence : List Char := "```".data

/-- If `p` is a prefix of `cs`, the remainder after it. -/
def stripPfx (p cs : List Char) : Option (List Char) :=
  if p.isPrefixOf cs then some (cs.drop p.length) else none

/-- The lazy group of `(.+?)` followed by a closing fence: the shortest
non-empty prefix of `cs` that is followed by three backticks (with `.`
matching newlines, as under the regex `s` flag). -/
def lazyCapture : List Char → Option (List Char)
  | [] => none
  | c :: cs =>
      if fence.isPrefixOf cs then some [c]
      else (lazyCapture cs).map (fun cap => c :: cap)

namespace ChatGPTExtractor

/-- One anchored attempt of `/User profile:\s*`+fence+`(.+?)`+fence+`/s`
at the head of `cs` (the greedy `\s*` needs no backtracking because a
backtick is not whitespace). -/
def userProfileMatchAt (cs : List Char) : Option (List Char) :=
  (stripPfx "User profile:".data cs).bind fun r1 =>
    (stripPfx fence (r1.dropWhile isWS)).bind fun r2 => lazyCapture r2

/-- First match of the user-profile regex: positions tried left to
right, capture group returned. -/
def userProfileScan : List Char → Option (List Char)
  | [] => none
  | c :: cs =>
      match userProfileMatchAt (c :: cs) with
      | some cap => some cap
      | none => userProfileScan cs

/-- One anchored attempt of the fence-delimited instructions regex. -/
def instructionsMatchAt (cs : List Char) : Option (List Char) :=
  (stripPfx fence cs).bind lazyCapture

/-- First match of the instructions regex. -/
def instructionsScan : List Char → Option (List Char)
  | [] => none
  | c :: cs =>
      match instructionsMatchAt (c :: cs) with
      | some cap => some cap
      | none => instructionsScan cs

/-- `v.match(...)` for the profile regex: matching on a truthy
non-string throws (`none`); a string yields the optional capture. -/
def jsMatchUserProfile : JSValue → Option (Option String)
  | .str s => some ((userProfileScan s.data).map String.mk)
  | _ => none

/-- `v.match(...)` for the instructions regex. -/
def jsMatchInstructions : JSValue → Option (Option String)
  | .str s => some ((instructionsScan s.data).map String.mk)
  | _ => none

/-- Loop body of `extractUserProfile`: the first node whose message
content is tagged `user_editable_context` yields the clean metadata
field when truthy (a non-string value makes `trim` throw), and
otherwise the regex fallback over `content.user_profile`. -/
def extractUserProfileLoop : List (String × JSValue) → Option JSValue
  | [] => some (.str "")
  | (_, node) :: rest =>
      match node with
      | .null => none
      | .undef => none
      | _ =>
        let m := propOn node "message"
        if optChain (optChain m "content") "content_type" == JSValue.str "user_editable_context" then
          let metadata := optChain (propOn m "metadata") "user_context_message_data"
          if jsTruthy metadata && jsTruthy (propOn metadata "about_user_message") then do
            let t ← jsTrim (propOn metadata "about_user_message")
            pure (.str t)
          else do
            let profile := jsOr (propOn (propOn m "content") "user_profile") (.str "")
            let res ← jsMatchUserProfile profile
            match res with
            | some cap => pure (.str (jsTrimStr cap))
            | none => pure (.str "")
        else extractUserProfileLoop rest

/-- `extractUserProfile(mapping)`. -/
def extractUserProfile (mapping : JSValue) : Option JSValue :=
  extractUserProfileLoop (entriesForIn mapping)

/-- Loop body of `extractUserInstructions` (same shape, over
`about_model_message` and `content.user_instructions`). -/
def extractUserInstructionsLoop : List (String × JSValue) → Option JSValue
  | [] => some (.str "")
  | (_, node) :: rest =>
      match node with
      | .null => none
      | .undef => none
      | _ =>
        let m := propOn node "message"
        if optChain (optChain m "content") "content_type" == JSValue.str "user_editable_context" then
          let metadata := optChain (propOn m "metadata") "user_context_message_data"
          if jsTruthy metadata && jsTruthy (propOn metadata "about_model_message") then do
            let t ← jsTrim (propOn metadata "about_model_message")
            pure (.str t)
          else do
            let instructions := jsOr (propOn (propOn m "content") "user_instructions") (.str "")
            let res ← jsMatchInstructions instructions
            match res with
            | some cap => pure (.str (jsTrimStr cap))
            | none => pure (.str "")
        else extractUserInstructionsLoop rest

/-- `extractUserInstructions(mapping)`. -/
def extractUserInstructions (mapping : JSValue) : Option JSValue :=
  extractUserInstructionsLoop (entriesForIn mapping)

/-- Loop body of `countMessagesByRole`: a node with a truthy `message`
whose `author?.role` equals the role counts; a `null`/`undefined` node
makes the property access throw. -/
def countMessagesByRoleLoop (role : String) : List (String × JSValue) → Option Nat
  | [] => some 0
  | (_, node) :: rest =>
      match node with
      | .null => none
      | .undef => none
      | _ => do
        let c ← countMessagesByRoleLoop role rest
        let m := propOn node "message"
        if jsTruthy m && (optChain (propOn m "author") "role" == JSValue.str role) then
          pure (c + 1)
        else pure c

/-- `countMessagesByRole(mapping, role)`. -/
def countMessagesByRole (mapping : JSValue) (role : String) : Option Nat :=
  countMessagesByRoleLoop role (entriesForIn mapping)

/-- Loop body of `countAllMessages`: nodes with a truthy `message` and
truthy `content` count, except the two editable-context content
types. -/
def countAllMessagesLoop : List (String × JSValue) → Option Nat
  | [] => some 0
  | (_, node) :: rest =>
      match node with
      | .null => none
      | .undef => none
      | _ => do
        let c ← countAllMessagesLoop rest
        let m := propOn node "message"
        if jsTruthy m && jsTruthy (propOn m "content") then
          let contentType := propOn (propOn m "content") "content_type"
          if contentType == JSValue.str "user_editable_context" ||
              contentType == JSValue.str "model_editable_context" then
            pure c
          else pure (c + 1)
        else pure c

/-- `countAllMessages(mapping)`. -/
def countAllMessages (mapping : JSValue) : Option Nat :=
  countAllMessagesLoop (entriesForIn mapping)

/-- Loop body of `getDefaultModelSlug`: first truthy
`message?.metadata?.default_model_slug` wins. -/
def getDefaultModelSlugLoop : List (String × JSValue) → Option JSValue
  | [] => some (.str "")
  | (_, node) :: rest =>
      match node with
      | .null => none
      | .undef => none
      | _ =>
        let slug := optChain (optChain (propOn node "message") "metadata") "default_model_slug"
        if jsTruthy slug then some slug else getDefaultModelSlugLoop rest

/-- `getDefaultModelSlug(conversationData)` (reads `mapping` again,
which throws on a `null`/`undefined` conversation object). -/
def getDefaultModelSlug (conversationData : JSValue) : Option JSValue := do
  let mappingRaw ← getProp conversationData "mapping"
  getDefaultModelSlugLoop (entriesForIn (jsOr mappingRaw (.obj [])))

/-- `parts.join(sep)` over JavaScript values. -/
def jsJoinVals (sep : String) (elems : List JSValue) : String :=
  joinSep sep (elems.map joinElemStr)

/-- The filter-and-map of the `multimodal_text` branch: string parts are
kept as they are; other parts are kept when tagged `text`, mapped to
`part.text || ""`.  The tag access `part.content_type` is unguarded in
this module, so a `null`/`undefined` part throws. -/
def mmTextParts : List JSValue → Option (List String)
  | [] => some []
  | .str s :: ps => do
      let rest ← mmTextParts ps
      pure (s :: rest)
  | .null :: _ => none
  | .undef :: _ => none
  | p :: ps =>
      if propOn p "content_type" == JSValue.str "text" then do
        let rest ← mmTextParts ps
        pure (joinElemStr (jsOr (propOn p "text") (.str "")) :: rest)
      else mmTextParts ps

/-- The map of the `thoughts` branch: `thought.content || ""` for each
thought; the unguarded access throws on a `null`/`undefined` item. -/
def thoughtTexts : List JSValue → Option (List String)
  | [] => some []
  | .null :: _ => none
  | .undef :: _ => none
  | t :: ts => do
      let rest ← thoughtTexts ts
      pure (joinElemStr (jsOr (propOn t "content") (.str "")) :: rest)

/-- `extractTextFromContent` of the ChatGPT extractor module.  The
source is a chain of `if (tag && Array.isArray(...))` returns; a tag
that matches with a non-array payload falls through every later branch
(which all test other tags) to the final empty-string return, which is
how the non-array match arms below are justified. -/
def extractTextFromContent (content : JSValue) : Option JSValue :=
  if !jsTruthy content then some (.str "")
  else
    let contentType := propOn content "content_type"
    if contentType == JSValue.str "text" then
      match propOn content "parts" with
      | .arr parts => some (.str (jsJoinVals "\n" parts))
      | _ => some (.str "")
    else if contentType == JSValue.str "multimodal_text" then
      match propOn content "parts" with
      | .arr parts => do
          let texts ← mmTextParts parts
          pure (.str (joinSep "\n" texts))
      | _ => some (.str "")
    else if contentType == JSValue.str "thoughts" then
      match propOn content "thoughts" with
      | .arr ths => do
          let texts ← thoughtTexts ths
          pure (.str (joinSep "\n\n" texts))
      | _ => some (.str "")
    else if contentType == JSValue.str "user_editable_context" then some (.str "")
    else if contentType == JSValue.str "model_editable_context" then some (.str "")
    else if contentType == JSValue.str "execution_output" then
      some (jsOr (propOn content "text") (.str ""))
    else some (.str "")

/-- `hasImages(content)`. -/
def hasImages (content : JSValue) : Bool :=
  if !jsTruthy content || !(propOn content "content_type" == JSValue.str "multimodal_text") then
    false
  else
    match propOn content "parts" with
    | .arr parts =>
        parts.any (fun p => jsTruthy p && jsTypeof p == "object" &&
          (propOn p "content_type" == JSValue.str "image_asset_pointer"))
    | _ => false

/-- `extractImageIds(content)`. -/
def extractImageIds (content : JSValue) : String :=
  if !jsTruthy content || !(propOn content "content_type" == JSValue.str "multimodal_text") then
    ""
  else
    match propOn content "parts" with
    | .arr parts =>
        jsJoinVals ","
          (((parts.filter (fun p => jsTruthy p && jsTypeof p == "object" &&
              (propOn p "content_type" == JSValue.str "image_asset_pointer"))).map
            (fun p => jsOr (propOn p "asset_pointer") (.str ""))).filter jsTruthy)
    | _ => ""

/-- `extractConversationMetadata(conversationData)`: the one-row
metadata record, fields in the insertion order of the source object
literal.  `default_model_slug` falls back to the mapping scan only when
the top-level field is falsy. -/
def extractConversationMetadata (conversationData : JSValue) : Option Row := do
  let mappingRaw ← getProp conversationData "mapping"
  let mapping := jsOr mappingRaw (.obj [])
  let dms ←
    (let v := propOn conversationData "default_model_slug"
     if jsTruthy v then some v else getDefaultModelSlug conversationData)
  let numMessages ← countAllMessages mapping
  let numUser ← countMessagesByRole mapping "user"
  let numAssistant ← countMessagesByRole mapping "assistant"
  let numTool ← countMessagesByRole mapping "tool"
  let up ← extractUserProfile mapping
  let ui ← extractUserInstructions mapping
  pure [("conversation_id",
          jsOr (propOn conversationData "conversation_id")
            (jsOr (propOn conversationData "id") (.str ""))),
        ("title", jsOr (propOn conversationData "title") (.str "")),
        ("create_time", jsOr (propOn conversationData "create_time") (.str "")),
        ("update_time", jsOr (propOn conversationData "update_time") (.str "")),
        ("default_model_slug", dms),
        ("memory_scope", jsOr (propOn conversationData "memory_scope") (.str "")),
        ("is_do_not_remember", jsOr (propOn conversationData "is_do_not_remember") (.bool false)),
        ("num_messages", .num (Int.ofNat numMessages)),
        ("num_user_messages", .num (Int.ofNat numUser)),
        ("num_assistant_messages", .num (Int.ofNat numAssistant)),
        ("num_tool_messages", .num (Int.ofNat numTool)),
        ("user_profile", up),
        ("user_instructions", ui)]

/-- The row pushed for one message node (the object literal of the
loop body, with the surrounding `let` bindings recomputed from the
node). -/
def messageRowOf (conversationId : JSValue) (nodeId : String) (node : JSValue)
    (text : JSValue) : Row :=
  let message := propOn node "message"
  let content := propOn message "content"
  let contentType := jsOr (optChain content "content_type") (.str "")
  let authorRole := jsOr (optChain (propOn message "author") "role") (.str "")
  let isVisuallyHidden :=
    jsOr (optChain (propOn message "metadata") "is_visually_hidden_from_conversation")
      (.bool false)
  let modelSlug := jsOr (optChain (propOn message "metadata") "model_slug") (.str "")
  let toolName :=
    if authorRole == JSValue.str "tool" then
      jsOr (optChain (propOn message "author") "name") (.str "")
    else .str ""
  [("conversation_id", conversationId),
   ("node_id", jsOr (propOn message "id") (.str nodeId)),
   ("parent_id", jsOr (propOn node "parent") (.str "")),
   ("author_role", authorRole),
   ("content_type", contentType),
   ("text", text),
   ("has_image", .bool (hasImages content)),
   ("image_ids", .str (extractImageIds content)),
   ("create_time", jsOr (propOn message "create_time") (.str "")),
   ("status", jsOr (propOn message "status") (.str "")),
   ("end_turn", jsOr (propOn message "end_turn") (.bool false)),
   ("is_visually_hidden", isVisuallyHidden),
   ("model_slug", modelSlug),
   ("tool_name", toolName)]

/-- The body of one iteration of the `extractConversationMessages`
loop: `none` models a thrown exception, `some none` a `continue`
(message-less node or editable-context content), `some (some row)` an
emitted message row. -/
def messageStep (conversationId : JSValue) (nodeId : String) (node : JSValue) :
    Option (Option Row) :=
  match node with
  | .null => none
  | .undef => none
  | _ =>
    let message := propOn node "message"
    if !jsTruthy message then some none
    else
      let content := propOn message "content"
      let contentType := jsOr (optChain content "content_type") (.str "")
      if contentType == JSValue.str "user_editable_context" ||
          contentType == JSValue.str "model_editable_context" then some none
      else do
        let text ← extractTextFromContent content
        pure (some (messageRowOf conversationId nodeId node text))

/-- The `for (const nodeId in mapping)` loop of
`extractConversationMessages`; there is no per-message catch, so a
thrown step aborts the whole loop. -/
def extractMessagesLoop (conversationId : JSValue) :
    List (String × JSValue) → Option (List Row)
  | [] => some []
  | (nodeId, node) :: rest => do
      let r ← messageStep conversationId nodeId node
      let rs ← extractMessagesLoop conversationId rest
      pure (match r with
            | some row => row :: rs
            | none => rs)

/-- `extractConversationMessages(conversationData)`. -/
def extractConversationMessages (conversationData : JSValue) : Option (List Row) := do
  let mappingRaw ← getProp conversationData "mapping"
  let mapping := jsOr mappingRaw (.obj [])
  let conversationId :=
    jsOr (propOn conversationData "conversation_id")
      (jsOr (propOn conversationData "id") (.str ""))
  extractMessagesLoop conversationId (entriesForIn mapping)

/-- `escapeCSVField` of the ChatGPT extractor module: plain RFC 4180
quoting on comma, double quote or newline.  Unlike the background
version it has no CSV-injection neutralization and does not quote on a
bare carriage return. -/
def escapeCSVField (value : JSValue) : String :=
  match value with
  | .null => ""
  | .undef => ""
  | v =>
    let s := jsToString v
    if s.data.contains ',' || s.data.contains qc || s.data.contains '\n' then
      quoteWrap s
    else s

/-- The fixed header list of the metadata CSV. -/
def metadataHeaders : List String :=
  ["conversation_id", "title", "create_time", "update_time", "default_model_slug",
   "memory_scope", "is_do_not_remember", "num_messages", "num_user_messages",
   "num_assistant_messages", "num_tool_messages", "user_profile", "user_instructions"]

/-- `generateMetadataCSV(metadata)`: header row (joined unescaped, as in
the source) and one data row. -/
def generateMetadataCSV (metadata : Row) : String :=
  joinSep "\n"
    [joinSep "," metadataHeaders,
     joinSep "," (metadataHeaders.map (fun h => escapeCSVField (lookupField metadata h)))]

/-- The simplified header list of the messages CSV. -/
def messagesHeaders : List String :=
  ["conversation_id", "message_id", "author_role", "content_type", "text",
   "create_time", "model_slug"]

/-- `generateMessagesCSV(messages)`: each message is first remapped to
the simplified structure (with `message_id` taken from `node_id`). -/
def generateMessagesCSV (messages : List Row) : String :=
  joinSep "\n"
    (joinSep "," messagesHeaders ::
      messages.map (fun msg =>
        let simplifiedMsg : Row :=
          [("conversation_id", lookupField msg "conversation_id"),
           ("message_id", lookupField msg "node_id"),
           ("author_role", lookupField msg "author_role"),
           ("content_type", lookupField msg "content_type"),
           ("text", lookupField msg "text"),
           ("create_time", lookupField msg "create_time"),
           ("model_slug", lookupField msg "model_slug")]
        joinSep "," (messagesHeaders.map (fun h => escapeCSVField (lookupField simplifiedMsg h)))))

/-- The record returned by `extractChatGPTConversation`. -/
structure ChatGPTResult where
  metadataCSV : String
  messagesCSV : String
  metadata : Row
  messages : List Row
  deriving DecidableEq, Repr

/-- `extractChatGPTConversation(conversationData)`: throws (`none`) on a
falsy conversation object or falsy `mapping`, otherwise produces the
metadata CSV and the messages CSV. -/
def extractChatGPTConversation (conversationData : JSValue) : Option ChatGPTResult :=
  if !jsTruthy conversationData then none
  else if !jsTruthy (propOn conversationData "mapping") then none
  else do
    let metadata ← extractConversationMetadata conversationData
    let messages ← extractConversationMessages conversationData
    pure ⟨generateMetadataCSV metadata, generateMessagesCSV messages, metadata, messages⟩

end ChatGPTExtractor

/-!
## The flatten utility module

Embedding of `extractTextFromContent` of `utils/flatten.js`, the richer
variant with guarded multimodal filtering, extra content types and the
free-text / string-parts / empty-string fallback chain.
-/

namespace Flatten

/-- The elements of an array value (callers test `Array.isArray`
first). -/
def arrElems : JSValue → List JSValue
  | .arr xs => xs
  | _ => []

/-- The guarded filter-and-map of the `multimodal_text` branch of the
flatten module (`part && part.content_type` cannot throw). -/
def mmTextPartsGuarded : List JSValue → List String
  | [] => []
  | .str s :: ps => s :: mmTextPartsGuarded ps
  | p :: ps =>
      if jsTruthy p && (propOn p "content_type" == JSValue.str "text") then
        joinElemStr (jsOr (propOn p "text") (.str "")) :: mmTextPartsGuarded ps
      else mmTextPartsGuarded ps

/-- The string items of a parts list (the last-resort fallback). -/
def stringItems : List JSValue → List String
  | [] => []
  | .str s :: ps => s :: stringItems ps
  | _ :: ps => stringItems ps

/-- The pushed values of the `user_editable_context` branch: the truthy
ones among `user_profile` and `user_instructions`. -/
def uecParts (content : JSValue) : List JSValue :=
  (if jsTruthy (propOn content "user_profile") then [propOn content "user_profile"] else []) ++
    (if jsTruthy (propOn content "user_instructions") then [propOn content "user_instructions"] else [])

/-- `extractTextFromContent` of the flatten module.  Each source branch
tests its tag together with `Array.isArray` where applicable; a branch
whose array test fails falls through all later branches (they test
other tags) into the fallback chain, which the translation follows
branch by branch. -/
def extractTextFromContent (content : JSValue) : Option JSValue :=
  if !jsTruthy content then some (.str "")
  else
    let contentType := propOn content "content_type"
    let parts := propOn content "parts"
    if contentType == JSValue.str "text" && isArr parts then
      some (.str (ChatGPTExtractor.jsJoinVals "\n" (arrElems parts)))
    else if contentType == JSValue.str "multimodal_text" && isArr parts then
      some (.str (joinSep "\n" (mmTextPartsGuarded (arrElems parts))))
    else if contentType == JSValue.str "thoughts" && isArr (propOn content "thoughts") then do
      let texts ← ChatGPTExtractor.thoughtTexts (arrElems (propOn content "thoughts"))
      pure (.str (joinSep "\n\n" texts))
    else if contentType == JSValue.str "execution_output" then
      some (jsOr (propOn content "text") (.str ""))
    else if contentType == JSValue.str "user_editable_context" then
      some (.str (joinSep "\n\n" ((uecParts content).map joinElemStr)))
    else if contentType == JSValue.str "model_editable_context" then
      some (jsOr (propOn content "model_set_context") (.str ""))
    else if contentType == JSValue.str "code" then
      some (jsOr (propOn content "text") (.str ""))
    else if contentType == JSValue.str "reasoning_recap" then
      if isArr parts then
        some (.str (ChatGPTExtractor.jsJoinVals "\n" (arrElems parts)))
      else some (jsOr (propOn content "recap") (jsOr (propOn content "text") (.str "")))
    else if jsTruthy (propOn content "text") then some (propOn content "text")
    else if isArr parts then
      some (.str (joinSep "\n" (stringItems (arrElems parts))))
    else some (.str "")

end Flatten

/-!
## A reference RFC 4180 parser

An independent CSV reader used to state the encode-then-parse claims.
Fields are separated by commas and records by line feeds (the record
separator the generators emit; a carriage return only ever occurs
inside a quoted field in generated output).  A field beginning with a
double quote is read in quoted form with doubled quotes collapsed.
-/

/-- Read the remainder of a quoted field: a doubled quote yields one
literal quote, a single closing quote ends the field (an unterminated
field extends to the end of input). -/
def parseQuoted : List Char → List Char × List Char
  | [] => ([], [])
  | c :: cs =>
      if c = qc then
        match cs with
        | [] => ([], [])
        | d :: cs2 =>
            if d = qc then
              let r := parseQuoted cs2
              (qc :: r.1, r.2)
            else ([], cs)
      else
        let r := parseQuoted cs
        (c :: r.1, r.2)

/-- Read an unquoted field: everything up to the next comma or line
feed. -/
def parseUnquoted : List Char → List Char × List Char
  | [] => ([], [])
  | c :: cs =>
      if c = ',' ∨ c = '\n' then ([], c :: cs)
      else
        let r := parseUnquoted cs
        (c :: r.1, r.2)

/-- Read one field, dispatching on a leading double quote. -/
def parseField : List Char → List Char × List Char
  | [] => ([], [])
  | c :: cs => if c = qc then parseQuoted cs else parseUnquoted (c :: cs)

/-- The input remaining after a quoted field never grows. -/
theorem parseQuoted_rest_le : ∀ cs : List Char, (parseQuoted cs).2.length ≤ cs.length
  | [] => by simp [parseQuoted]
  | [d] => by
      by_cases hd : d = qc <;> simp [parseQuoted, hd]
  | c :: d :: cs2 => by
      have ih2 := parseQuoted_rest_le cs2
      have ih1 := parseQuoted_rest_le (d :: cs2)
      by_cases hc : c = qc
      · by_cases hd : d = qc
        · simp only [parseQuoted, hc, hd, if_true, List.length_cons]
          omega
        · simp [parseQuoted, hc, hd]
      · simp only [parseQuoted, hc, if_false, List.length_cons]
        simp only [List.length_cons] at ih1
        omega

/-- The input remaining after an unquoted field never grows. -/
theorem parseUnquoted_rest_le : ∀ cs : List Char, (parseUnquoted cs).2.length ≤ cs.length
  | [] => by simp [parseUnquoted]
  | c :: cs => by
      have ih := parseUnquoted_rest_le cs
      by_cases hc : c = ',' ∨ c = '\n'
      · simp [parseUnquoted, hc]
      · simp only [parseUnquoted, hc, if_false, List.length_cons]
        omega

/-- The input remaining after a field never grows. -/
theorem parseField_rest_le (cs : List Char) : (parseField cs).2.length ≤ cs.length := by
  cases cs with
  | nil => simp [parseField]
  | cons c cs =>
      by_cases hc : c = qc
      · simp only [parseField, hc, if_true]
        exact Nat.le_succ_of_le (parseQuoted_rest_le cs)
      · simp only [parseField, hc, if_false]
        exact parseUnquoted_rest_le (c :: cs)

/-- Read one record: fields separated by commas, ended by a line feed
or the end of input (a stray character after a closing quote also ends
the record; it never occurs in generated output).  The fuel argument
only bounds the recursion; any fuel above the input length gives the
same result. -/
def parseRecordF : Nat → List Char → List String × List Char
  | 0, _ => ([], [])
  | fuel + 1, cs =>
      if (parseField cs).2.head? = some ',' then
        (String.mk (parseField cs).1 :: (parseRecordF fuel (parseField cs).2.tail).1,
          (parseRecordF fuel (parseField cs).2.tail).2)
      else if (parseField cs).2.head? = some '\n' then
        ([String.mk (parseField cs).1], (parseField cs).2.tail)
      else ([String.mk (parseField cs).1], [])

/-- The input remaining after a record shrinks unless it is empty. -/
theorem parseRecordF_rest :
    ∀ (fuel : Nat) (cs : List Char),
      (parseRecordF fuel cs).2.length < cs.length ∨ (parseRecordF fuel cs).2 = []
  | 0, _ => by simp [parseRecordF]
  | fuel + 1, cs => by
      rw [parseRecordF]
      have hle := parseField_rest_le cs
      by_cases hcomma : (parseField cs).2.head? = some ','
      · rw [if_pos hcomma]
        cases hrest : (parseField cs).2 with
        | nil => rw [hrest] at hcomma; simp at hcomma
        | cons c r2 =>
            rw [hrest] at hle
            simp only [List.length_cons] at hle
            rcases parseRecordF_rest fuel ((parseField cs).2.tail) with hlt | hnil
            · left
              rw [hrest] at hlt
              simp only [List.tail_cons] at hlt
              simp only [hrest, List.tail_cons]
              omega
            · right
              rw [hrest] at hnil
              simpa using hnil
      · rw [if_neg hcomma]
        by_cases hnl : (parseField cs).2.head? = some '\n'
        · rw [if_pos hnl]
          left
          cases hrest : (parseField cs).2 with
          | nil => rw [hrest] at hnl; simp at hnl
          | cons c r2 =>
              rw [hrest] at hle
              simp only [List.length_cons] at hle
              simp only [hrest, List.tail_cons]
              omega
        · rw [if_neg hnl]
          right
          rfl

/-- Read all records of the input (an input ending in a line feed has
no final empty record, matching the optional trailing line break of
RFC 4180). -/
def parseRecordsF : Nat → List Char → List (List String)
  | 0, _ => []
  | fuel + 1, cs =>
      if (parseRecordF (fuel + 1) cs).2.isEmpty then [(parseRecordF (fuel + 1) cs).1]
      else (parseRecordF (fuel + 1) cs).1 :: parseRecordsF fuel (parseRecordF (fuel + 1) cs).2

/-- The reference parser on strings (the fuel bound exceeds the input
length, so it never runs out). -/
def parseCSV (s : String) : List (List String) := parseRecordsF (s.data.length + 1) s.data

/-!
## Statement-level definitions

Derived notions used to state the claims: the string form a field value
takes inside a CSV cell, the table of those string forms, and the
context-node predicate of the ChatGPT graph normalizer.
-/

/-- The string form a field value contributes to a CSV cell before
escaping: empty for `null`/`undefined`, otherwise `String(v)`. -/
def fieldToString : JSValue → String
  | .null => ""
  | .undef => ""
  | v => jsToString v

/-- The table of cell strings that `generateCSV` serializes when called
without explicit headers: the key list of the first row, then for every
row the string forms of its values under those keys. -/
def stringTable : List Row → List (List String)
  | [] => []
  | r0 :: rest =>
      (r0.map Prod.fst) ::
        (r0 :: rest).map (fun r => (r0.map Prod.fst).map (fun h => fieldToString (lookupField r h)))

/-- Pure RFC 4180 escaping over the background quote-set (comma, double
quote, line feed, carriage return): what `Background.escapeCSVField`
applies after injection neutralization. -/
def rfcEscape (s : String) : String :=
  if s.data.contains ',' || s.data.contains qc ||
      s.data.contains '\n' || s.data.contains '\r' then
    quoteWrap s
  else s

/-- Whether a mapping node is skipped by the ChatGPT message extractor
as context-only (mirrors the skip condition of `messageStep`). -/
def isContextNode (node : JSValue) : Bool :=
  let contentType :=
    jsOr (optChain (propOn (propOn node "message") "content") "content_type") (.str "")
  contentType == JSValue.str "user_editable_context" ||
    contentType == JSValue.str "model_editable_context"

/-- The conversation id expression shared by the ChatGPT extractor
functions. -/
def conversationIdOf (conversationData : JSValue) : JSValue :=
  jsOr (propOn conversationData "conversation_id")
    (jsOr (propOn conversationData "id") (.str ""))

/-- The natural number held by a numeric field (zero otherwise). -/
def natOfNum : JSValue → Nat
  | .num n => n.toNat
  | _ => 0

/-- Split a character list at line feeds (for talking about the
physical lines of a generated CSV). -/
def splitLines : List Char → List (List Char)
  | [] => [[]]
  | c :: cs =>
      if c = '\n' then [] :: splitLines cs
      else
        match splitLines cs with
        | [] => [[c]]
        | l :: ls => (c :: l) :: ls

/-- The physical lines of a string. -/
def csvLines (s : String) : List String := (splitLines s.data).map String.mk

/-!
## Supporting lemmas
-/

/-- `x || ""` on a string value is the value itself. -/
theorem jsOr_str_self (t : String) : jsOr (.str t) (.str "") = .str t := by
  by_cases h : t = "" <;> simp [jsOr, jsTruthy, h]

/-- String values join as themselves. -/
theorem joinElemStr_str (s : String) : joinElemStr (.str s) = s := rfl

/-- Joining a list of string values is joining the strings. -/
theorem jsJoinVals_strs (sep : String) (ps : List String) :
    ChatGPTExtractor.jsJoinVals sep (ps.map JSValue.str) = joinSep sep ps := by
  unfold ChatGPTExtractor.jsJoinVals
  congr 1
  simp [List.map_map, Function.comp_def, joinElemStr_str]

/-- The thought texts of a list of plain `content` thoughts. -/
theorem thoughtTexts_objs (ts : List String) :
    ChatGPTExtractor.thoughtTexts
        (ts.map (fun t => JSValue.obj [("content", JSValue.str t)])) = some ts := by
  induction ts with
  | nil => rfl
  | cons t ts ih =>
      simp [ChatGPTExtractor.thoughtTexts, ih, propOn, lookupField, jsOr_str_self,
        joinElemStr_str]

/-- A key absent from a row looks up to `undefined`. -/
theorem lookupField_not_mem (r : Row) (h : String) (hmem : h ∉ r.map Prod.fst) :
    lookupField r h = .undef := by
  induction r with
  | nil => rfl
  | cons kv rest ih =>
      simp only [List.map_cons, List.mem_cons] at hmem
      push_neg at hmem
      simp only [lookupField]
      rw [if_neg (fun hk => hmem.1 hk.symm)]
      exact ih hmem.2

/-!
## The claims
-/

/-- C1: the claim states that the CSV field encoder prefixes every
formula-leading field with an apostrophe, so that no field of any
generated CSV begins with an unprefixed formula trigger.  The
background `escapeCSVField` does prefix, but the ChatGPT extractor
module ships its own `escapeCSVField` with no neutralization, and the
messages CSV it generates carries a bare leading `=`: the code
contradicts the specification and the security documentation of the
repository, which promise the neutralization for generated CSVs. -/
theorem C1_csv_injection_divergence :
    Background.escapeCSVField (.str "=1+1") = apostrophe ++ "=1+1" ∧
    ChatGPTExtractor.escapeCSVField (.str "=1+1") = "=1+1" ∧
    ChatGPTExtractor.generateMessagesCSV
        [[("conversation_id", .str "c"), ("node_id", .str "n"),
          ("author_role", .str "user"), ("content_type", .str "text"),
          ("text", .str "=1+1"), ("create_time", .str ""), ("model_slug", .str "")]] =
      "conversation_id,message_id,author_role,content_type,text,create_time,model_slug" ++
        "\nc,n,user,text,=1+1,," :=
  ⟨rfl, rfl, rfl⟩

/-- The Claude end-to-end scenario payload of the specification. -/
def claudeScenarioPayload : JSValue :=
  .obj [("chat_messages", .arr
          [.obj [("uuid", .str "m1"), ("sender", .str "human"),
                 ("content", .arr [.obj [("type", .str "text"), ("text", .str "Hi")]]),
                 ("created_at", .str "2024-01-01T00:00:00Z")]]),
        ("uuid", .str "c1"), ("name", .str "Test")]

/-- C9 counterexample: the claimed second CSV line ends `,,,,`, but the
`truncated` column defaults to the boolean `false`, which serializes as
the string `false`, so the actual second line ends `,,false,`. -/
theorem C9_second_line_counterexample :
    (csvLines (Background.generateCSV
        (Background.ClaudeHandler.flattenConversationData claudeScenarioPayload)
        none))[1]? ≠
      some "c1,Test,m1,,human,Hi,2024-01-01T00:00:00Z,,,," := by
  decide

/-- C9 amended: the scenario payload yields exactly one message record
with conversation id `c1`, message id `m1`, sender `human` and text
`Hi`, and the generated CSV is the claimed header line followed by
`c1,Test,m1,,human,Hi,2024-01-01T00:00:00Z,,,false,` (the `truncated`
column serializes the default boolean `false` as text rather than as an
empty field). -/
theorem C9_claude_end_to_end :
    Background.ClaudeHandler.flattenConversationData claudeScenarioPayload =
      [[("conversation_id", .str "c1"), ("conversation_name", .str "Test"),
        ("message_id", .str "m1"), ("parent_message_id", .str ""),
        ("sender", .str "human"), ("text", .str "Hi"),
        ("created_at", .str "2024-01-01T00:00:00Z"), ("updated_at", .str ""),
        ("index", .str ""), ("truncated", .bool false), ("stop_reason", .str "")]] ∧
    csvLines (Background.generateCSV
        (Background.ClaudeHandler.flattenConversationData claudeScenarioPayload)
        none) =
      ["conversation_id,conversation_name,message_id,parent_message_id,sender,text," ++
         "created_at,updated_at,index,truncated,stop_reason",
       "c1,Test,m1,,human,Hi,2024-01-01T00:00:00Z,,,false,"] := by
  constructor
  · rfl
  · decide

/-- C10: when `generateCSV` receives no header list, the columns are
exactly the keys of the first row in their order (a key only present in
later rows is dropped), and a header key absent from a row serializes
as the empty string. -/
theorem C10_default_headers :
    (∀ (r0 : Row) (rest : List Row),
        Background.generateCSV (r0 :: rest) none =
          Background.generateCSV (r0 :: rest) (some (r0.map Prod.fst))) ∧
    (∀ (r : Row) (h : String), h ∉ r.map Prod.fst →
        Background.escapeCSVField (lookupField r h) = "") ∧
    Background.generateCSV
        [[("a", .str "1")], [("a", .str "2"), ("b", .str "3")]] none = "a\n1\n2" ∧
    Background.generateCSV
        [[("a", .str "1"), ("b", .str "2")], [("a", .str "3")]] none = "a,b\n1,2\n3," := by
  refine ⟨fun r0 rest => rfl, fun r h hmem => ?_, rfl, rfl⟩
  rw [lookupField_not_mem r h hmem]
  rfl

/-- C10 witness: a key absent from a concrete row serializes to the
empty string. -/
theorem C10_default_headers_witness :
    Background.escapeCSVField (lookupField [("a", JSValue.str "1")] "x") = "" :=
  C10_default_headers.2.1 [("a", JSValue.str "1")] "x" (by decide)

/-- C4: a `text` content with string fragments maps to the fragments
joined with a line feed, and a `thoughts` content maps to the thought
contents joined with blank lines, in both copies of
`extractTextFromContent` (the ChatGPT extractor module and the flatten
module); in particular thoughts `a`, `b` yield `a\n\nb` exactly. -/
theorem C4_text_and_thoughts_joins :
    ∀ (ps ts : List String),
      ChatGPTExtractor.extractTextFromContent
          (.obj [("content_type", .str "text"), ("parts", .arr (ps.map JSValue.str))]) =
        some (.str (joinSep "\n" ps)) ∧
      ChatGPTExtractor.extractTextFromContent
          (.obj [("content_type", .str "thoughts"),
                 ("thoughts", .arr (ts.map (fun t => JSValue.obj [("content", JSValue.str t)])))]) =
        some (.str (joinSep "\n\n" ts)) ∧
      Flatten.extractTextFromContent
          (.obj [("content_type", .str "text"), ("parts", .arr (ps.map JSValue.str))]) =
        some (.str (joinSep "\n" ps)) ∧
      Flatten.extractTextFromContent
          (.obj [("content_type", .str "thoughts"),
                 ("thoughts", .arr (ts.map (fun t => JSValue.obj [("content", JSValue.str t)])))]) =
        some (.str (joinSep "\n\n" ts)) ∧
      ChatGPTExtractor.extractTextFromContent
          (.obj [("content_type", .str "thoughts"),
                 ("thoughts", .arr [.obj [("content", .str "a")], .obj [("content", .str "b")]])]) =
        some (.str "a\n\nb") := by
  intro ps ts
  refine ⟨?_, ?_, ?_, ?_, rfl⟩
  · simp [ChatGPTExtractor.extractTextFromContent, propOn, lookupField, jsTruthy,
      jsJoinVals_strs]
  · simp [ChatGPTExtractor.extractTextFromContent, propOn, lookupField, jsTruthy,
      thoughtTexts_objs]
  · simp [Flatten.extractTextFromContent, Flatten.arrElems, propOn, lookupField, jsTruthy,
      isArr, jsJoinVals_strs]
  · simp [Flatten.extractTextFromContent, Flatten.arrElems, propOn, lookupField, jsTruthy,
      isArr, thoughtTexts_objs]

/-- C3 counterexample: text extraction can throw.  A `thoughts` content
whose thoughts list holds a `null` item makes the unguarded
`thought.content` access throw in the flatten module (and in the
ChatGPT extractor module alike), so extraction does not terminate
without throwing for every content object. -/
theorem C3_thoughts_null_throws :
    Flatten.extractTextFromContent
        (.obj [("content_type", .str "thoughts"), ("thoughts", .arr [.null])]) = none ∧
    ChatGPTExtractor.extractTextFromContent
        (.obj [("content_type", .str "thoughts"), ("thoughts", .arr [.null])]) = none :=
  ⟨rfl, rfl⟩

/-- The recognized content-type tags of the two text extractors. -/
def knownContentTags : List String :=
  ["text", "multimodal_text", "thoughts", "execution_output",
   "user_editable_context", "model_editable_context", "code", "reasoning_recap"]

/-- C3 amended: on a content object with an unrecognized tag both text
extractors terminate without throwing; the flatten extractor falls
back, in order, to the truthy generic free-text field, then to the
string items of the parts list joined with line feeds, then to the
empty string, while the ChatGPT extractor module returns the empty
string directly.  (In general extraction can throw, but only through a
`null` item inside a `thoughts` or unguarded multimodal parts list: see
the counterexample.) -/
theorem C3_unknown_tag_fallback :
    ∀ (content : JSValue),
      (∀ tag ∈ knownContentTags, propOn content "content_type" ≠ JSValue.str tag) →
      Flatten.extractTextFromContent content =
        some (if jsTruthy (propOn content "text") then propOn content "text"
              else .str (joinSep "\n"
                (Flatten.stringItems (Flatten.arrElems (propOn content "parts"))))) ∧
      ChatGPTExtractor.extractTextFromContent content = some (.str "") := by
  intro content htag
  have hne : ∀ tag ∈ knownContentTags,
      (propOn content "content_type" == JSValue.str tag) = false := by
    intro tag hmem
    rw [beq_eq_false_iff_ne]
    exact htag tag hmem
  have h1 := hne "text" (by simp [knownContentTags])
  have h2 := hne "multimodal_text" (by simp [knownContentTags])
  have h3 := hne "thoughts" (by simp [knownContentTags])
  have h4 := hne "execution_output" (by simp [knownContentTags])
  have h5 := hne "user_editable_context" (by simp [knownContentTags])
  have h6 := hne "model_editable_context" (by simp [knownContentTags])
  have h7 := hne "code" (by simp [knownContentTags])
  have h8 := hne "reasoning_recap" (by simp [knownContentTags])
  by_cases hc : jsTruthy content
  · constructor
    · simp only [Flatten.extractTextFromContent, hc, h1, h2, h3, h4, h5, h6, h7, h8,
        Bool.false_and, Bool.not_true, if_false, ite_false, Bool.false_eq_true]
      by_cases ht : jsTruthy (propOn content "text")
      · simp [ht]
      · simp only [ht, if_false, Bool.false_eq_true]
        by_cases hp : isArr (propOn content "parts")
        · simp [hp]
        · have harr : Flatten.arrElems (propOn content "parts") = [] := by
            cases hpp : propOn content "parts" <;> simp_all [isArr, Flatten.arrElems]
          simp [hp, harr, Flatten.stringItems, joinSep]
    · simp [ChatGPTExtractor.extractTextFromContent, hc, h1, h2, h3, h4, h5, h6]
  · have hprop : ∀ k, propOn content k = .undef := by
      cases content <;> simp_all [jsTruthy, propOn]
    constructor
    · simp [Flatten.extractTextFromContent, hc, hprop, jsTruthy, Flatten.arrElems,
        Flatten.stringItems, joinSep]
    · simp [ChatGPTExtractor.extractTextFromContent, hc]

/-- C3 witness: a concrete unknown-tag content falls back to its
free-text field in the flatten module and to the empty string in the
ChatGPT extractor module. -/
theorem C3_unknown_tag_fallback_witness :
    Flatten.extractTextFromContent
        (.obj [("content_type", .str "weird"), ("text", .str "hello")]) =
      some (.str "hello") ∧
    ChatGPTExtractor.extractTextFromContent
        (.obj [("content_type", .str "weird"), ("text", .str "hello")]) =
      some (.str "") :=
  C3_unknown_tag_fallback
    (.obj [("content_type", .str "weird"), ("text", .str "hello")]) (by decide)

/-- Unfolding of one step of `countAllMessagesLoop` on a node on which
property access does not throw. -/
theorem countAllMessagesLoop_cons (k : String) (node : JSValue)
    (rest : List (String × JSValue)) (hn : node ≠ .null) (hu : node ≠ .undef) :
    ChatGPTExtractor.countAllMessagesLoop ((k, node) :: rest) =
      (ChatGPTExtractor.countAllMessagesLoop rest).bind (fun c =>
        if jsTruthy (propOn node "message") &&
            jsTruthy (propOn (propOn node "message") "content") then
          if propOn (propOn (propOn node "message") "content") "content_type" ==
                JSValue.str "user_editable_context" ||
              propOn (propOn (propOn node "message") "content") "content_type" ==
                JSValue.str "model_editable_context" then
            some c
          else some (c + 1)
        else some c) := by
  cases node <;> simp_all [ChatGPTExtractor.countAllMessagesLoop]

/-- Unfolding of one step of `countMessagesByRoleLoop` on a node on
which property access does not throw. -/
theorem countMessagesByRoleLoop_cons (role k : String) (node : JSValue)
    (rest : List (String × JSValue)) (hn : node ≠ .null) (hu : node ≠ .undef) :
    ChatGPTExtractor.countMessagesByRoleLoop role ((k, node) :: rest) =
      (ChatGPTExtractor.countMessagesByRoleLoop role rest).bind (fun c =>
        if jsTruthy (propOn node "message") &&
            (optChain (propOn (propOn node "message") "author") "role" ==
              JSValue.str role) then
          some (c + 1)
        else some c) := by
  cases node <;> simp_all [ChatGPTExtractor.countMessagesByRoleLoop]

/-- The well-formedness condition under which the role counts are
bounded by the total: every message node has truthy content of a
non-context content type. -/
def nodeCountsWellFormed (e : String × JSValue) : Prop :=
  jsTruthy (propOn e.2 "message") →
    jsTruthy (propOn (propOn e.2 "message") "content") ∧
    propOn (propOn (propOn e.2 "message") "content") "content_type" ≠
      JSValue.str "user_editable_context" ∧
    propOn (propOn (propOn e.2 "message") "content") "content_type" ≠
      JSValue.str "model_editable_context"

instance (e : String × JSValue) : Decidable (nodeCountsWellFormed e) := by
  unfold nodeCountsWellFormed
  infer_instance

/-- A successful `getProp` returns the total property lookup. -/
theorem eq_propOn_of_getProp {v : JSValue} {k : String} {x : JSValue}
    (h : getProp v k = some x) : x = propOn v k := by
  cases v with
  | null => simp [getProp] at h
  | undef => simp [getProp] at h
  | bool b => exact (Option.some_inj.mp h).symm
  | num n => exact (Option.some_inj.mp h).symm
  | str s => exact (Option.some_inj.mp h).symm
  | arr xs => exact (Option.some_inj.mp h).symm
  | obj fs => exact (Option.some_inj.mp h).symm

/-- Over well-formed nodes the three role counts sum to at most the
total count. -/
theorem countLoops_sum_le (entries : List (String × JSValue))
    (hwf : ∀ e ∈ entries, nodeCountsWellFormed e) :
    ∀ (total u a t : Nat),
      ChatGPTExtractor.countAllMessagesLoop entries = some total →
      ChatGPTExtractor.countMessagesByRoleLoop "user" entries = some u →
      ChatGPTExtractor.countMessagesByRoleLoop "assistant" entries = some a →
      ChatGPTExtractor.countMessagesByRoleLoop "tool" entries = some t →
      u + a + t ≤ total := by
  induction entries with
  | nil =>
      intro total u a t h1 h2 h3 h4
      simp [ChatGPTExtractor.countAllMessagesLoop,
        ChatGPTExtractor.countMessagesByRoleLoop] at h1 h2 h3 h4
      omega
  | cons e rest ih =>
      obtain ⟨k, node⟩ := e
      intro total u a t h1 h2 h3 h4
      have hnn : node ≠ .null := by
        rintro rfl
        simp [ChatGPTExtractor.countAllMessagesLoop] at h1
      have hnu : node ≠ .undef := by
        rintro rfl
        simp [ChatGPTExtractor.countAllMessagesLoop] at h1
      rw [countAllMessagesLoop_cons k node rest hnn hnu] at h1
      rw [countMessagesByRoleLoop_cons "user" k node rest hnn hnu] at h2
      rw [countMessagesByRoleLoop_cons "assistant" k node rest hnn hnu] at h3
      rw [countMessagesByRoleLoop_cons "tool" k node rest hnn hnu] at h4
      rw [Option.bind_eq_some] at h1 h2 h3 h4
      obtain ⟨c0, hr0, h1⟩ := h1
      obtain ⟨c1, hr1, h2⟩ := h2
      obtain ⟨c2, hr2, h3⟩ := h3
      obtain ⟨c3, hr3, h4⟩ := h4
      have hsum := ih (fun e he => hwf e (List.mem_cons_of_mem _ he)) c0 c1 c2 c3 hr0 hr1 hr2 hr3
      by_cases hm : jsTruthy (propOn node "message")
      · obtain ⟨hcontent, huec, hmec⟩ := hwf (k, node) (List.mem_cons_self _ _) hm
        rw [if_pos (by simp [hm, hcontent])] at h1
        rw [if_neg (by simp [huec, hmec])] at h1
        have htotal : total = c0 + 1 := by
          simpa using h1.symm
        set role := optChain (propOn (propOn node "message") "author") "role" with hrole
        by_cases hru : role == JSValue.str "user"
        · have hra : (role == JSValue.str "assistant") = false := by
            rw [beq_iff_eq] at hru
            rw [beq_eq_false_iff_ne, hru]
            simp
          have hrt : (role == JSValue.str "tool") = false := by
            rw [beq_iff_eq] at hru
            rw [beq_eq_false_iff_ne, hru]
            simp
          rw [if_pos (by simp [hm, hru])] at h2
          rw [if_neg (by simp [hra])] at h3
          rw [if_neg (by simp [hrt])] at h4
          have hu2 : u = c1 + 1 := by simpa using h2.symm
          have ha2 : a = c2 := by simpa using h3.symm
          have ht2 : t = c3 := by simpa using h4.symm
          omega
        · by_cases hra : role == JSValue.str "assistant"
          · have hrt : (role == JSValue.str "tool") = false := by
              rw [beq_iff_eq] at hra
              rw [beq_eq_false_iff_ne, hra]
              simp
            rw [if_neg (by simp [hru])] at h2
            rw [if_pos (by simp [hm, hra])] at h3
            rw [if_neg (by simp [hrt])] at h4
            have hu2 : u = c1 := by simpa using h2.symm
            have ha2 : a = c2 + 1 := by simpa using h3.symm
            have ht2 : t = c3 := by simpa using h4.symm
            omega
          · by_cases hrt : role == JSValue.str "tool"
            · rw [if_neg (by simp [hru])] at h2
              rw [if_neg (by simp [hra])] at h3
              rw [if_pos (by simp [hm, hrt])] at h4
              have hu2 : u = c1 := by simpa using h2.symm
              have ha2 : a = c2 := by simpa using h3.symm
              have ht2 : t = c3 + 1 := by simpa using h4.symm
              omega
            · rw [if_neg (by simp [hru])] at h2
              rw [if_neg (by simp [hra])] at h3
              rw [if_neg (by simp [hrt])] at h4
              have hu2 : u = c1 := by simpa using h2.symm
              have ha2 : a = c2 := by simpa using h3.symm
              have ht2 : t = c3 := by simpa using h4.symm
              omega
      · rw [if_neg (by simp [hm])] at h1
        rw [if_neg (by simp [hm])] at h2
        rw [if_neg (by simp [hm])] at h3
        rw [if_neg (by simp [hm])] at h4
        have htotal : total = c0 := by simpa using h1.symm
        have hu2 : u = c1 := by simpa using h2.symm
        have ha2 : a = c2 := by simpa using h3.symm
        have ht2 : t = c3 := by simpa using h4.symm
        omega

/-- A ChatGPT payload whose only node is a context-only message
authored by the user: counted by `countMessagesByRole` but excluded by
`countAllMessages`. -/
def contextOnlyPayload : JSValue :=
  .obj [("mapping", .obj
    [("n1", .obj [("message", .obj
      [("author", .obj [("role", .str "user")]),
       ("content", .obj [("content_type", .str "model_editable_context")])])])])]

/-- C6 counterexample: the metadata record of `contextOnlyPayload` has
`num_messages = 0` but `num_user_messages = 1`, so the sum of the role
counts exceeds the total and the claimed inequality is false. -/
theorem C6_counts_counterexample :
    (ChatGPTExtractor.extractConversationMetadata contextOnlyPayload).map
        (fun md => (lookupField md "num_messages", lookupField md "num_user_messages",
          lookupField md "num_assistant_messages", lookupField md "num_tool_messages")) =
      some (.num 0, .num 1, .num 0, .num 0) ∧
    (ChatGPTExtractor.extractConversationMetadata contextOnlyPayload).map
        (fun md => decide (natOfNum (lookupField md "num_user_messages") +
          natOfNum (lookupField md "num_assistant_messages") +
          natOfNum (lookupField md "num_tool_messages") ≤
          natOfNum (lookupField md "num_messages"))) = some false :=
  ⟨rfl, rfl⟩

/-- C6 amended: when every message node of the mapping carries truthy
content whose content type is not one of the two editable-context
types, the metadata record satisfies
`num_user_messages + num_assistant_messages + num_tool_messages ≤
num_messages`.  Without that assumption the inequality can fail,
because the role counts include context-only and content-less message
nodes that `countAllMessages` excludes (see the counterexample). -/
theorem C6_role_counts_bounded :
    ∀ (conversationData : JSValue) (md : Row),
      ChatGPTExtractor.extractConversationMetadata conversationData = some md →
      (∀ e ∈ entriesForIn (jsOr (propOn conversationData "mapping") (.obj [])),
          nodeCountsWellFormed e) →
      natOfNum (lookupField md "num_user_messages") +
          natOfNum (lookupField md "num_assistant_messages") +
          natOfNum (lookupField md "num_tool_messages") ≤
        natOfNum (lookupField md "num_messages") := by
  intro conversationData md h hwf
  unfold ChatGPTExtractor.extractConversationMetadata at h
  obtain ⟨mappingRaw, hmr, h⟩ := Option.bind_eq_some.mp h
  have hmr2 : mappingRaw = propOn conversationData "mapping" := eq_propOn_of_getProp hmr
  subst hmr2
  obtain ⟨dms, hdms, h⟩ := Option.bind_eq_some.mp h
  obtain ⟨numMessages, hnm, h⟩ := Option.bind_eq_some.mp h
  obtain ⟨numUser, hnu, h⟩ := Option.bind_eq_some.mp h
  obtain ⟨numAssistant, hna, h⟩ := Option.bind_eq_some.mp h
  obtain ⟨numTool, hnt, h⟩ := Option.bind_eq_some.mp h
  obtain ⟨up, hup, h⟩ := Option.bind_eq_some.mp h
  obtain ⟨ui, hui, h⟩ := Option.bind_eq_some.mp h
  have hmd : md = _ := (Option.some_inj.mp h).symm
  subst hmd
  simp only [lookupField]
  norm_num [natOfNum]
  exact countLoops_sum_le _ hwf numMessages numUser numAssistant numTool hnm hnu hna hnt

/-- A small well-formed two-message ChatGPT payload. -/
def wellFormedPayload : JSValue :=
  .obj [("mapping", .obj [
    ("n1", .obj [("message", .obj [("author", .obj [("role", .str "user")]),
      ("content", .obj [("content_type", .str "text"), ("parts", .arr [.str "hi"])])])]),
    ("n2", .obj [("message", .obj [("author", .obj [("role", .str "assistant")]),
      ("content", .obj [("content_type", .str "text"), ("parts", .arr [.str "yo"])])])])])]

/-- The metadata record of `wellFormedPayload`. -/
def wellFormedMetadata : Row :=
  [("conversation_id", .str ""), ("title", .str ""), ("create_time", .str ""),
   ("update_time", .str ""), ("default_model_slug", .str ""),
   ("memory_scope", .str ""), ("is_do_not_remember", .bool false),
   ("num_messages", .num 2), ("num_user_messages", .num 1),
   ("num_assistant_messages", .num 1), ("num_tool_messages", .num 0),
   ("user_profile", .str ""), ("user_instructions", .str "")]

/-- C6 witness: the bound holds on a concrete well-formed payload. -/
theorem C6_role_counts_bounded_witness :
    natOfNum (lookupField wellFormedMetadata "num_user_messages") +
        natOfNum (lookupField wellFormedMetadata "num_assistant_messages") +
        natOfNum (lookupField wellFormedMetadata "num_tool_messages") ≤
      natOfNum (lookupField wellFormedMetadata "num_messages") :=
  C6_role_counts_bounded wellFormedPayload wellFormedMetadata rfl (by decide)

/-- C7 counterexample: a ChatGPT payload holding only a
`conversation_id` passes validation (the validator accepts `mapping` or
`conversation_id`), and the normalizer then throws on the missing
mapping — so absence of the graph mapping is a normalizer failure, not
a validation failure, contradicting the claim. -/
theorem C7_mapping_absence_counterexample :
    Background.validateConversationData (.obj [("conversation_id", .str "x")]) "chatgpt" =
      ⟨true, none⟩ ∧
    ChatGPTExtractor.extractChatGPTConversation (.obj [("conversation_id", .str "x")]) =
      none :=
  ⟨rfl, rfl⟩

/-- A payload whose JSON serialization exceeds the 50MB bound. -/
def bigPayload : JSValue :=
  .obj [("a", .str (String.mk (List.replicate 52428801 'x')))]

/-- The escape of a run of the letter x is the run itself. -/
theorem flatMap_jsonEscapeChar_replicate (n : Nat) :
    (List.replicate n 'x').flatMap jsonEscapeChar = List.replicate n 'x' := by
  induction n with
  | zero => rfl
  | succ n ih => simp [List.replicate_succ, ih, jsonEscapeChar, qc]

/-- The serialized size of `bigPayload` exceeds the validator bound. -/
theorem bigPayload_length :
    (jsonStringify bigPayload).length = 52428809 := by
  have h1 : jsonStringify bigPayload =
      "\x7b" ++ (jsonQuote "a" ++ ":" ++
        jsonQuote (String.mk (List.replicate 52428801 'x'))) ++ "\x7d" := rfl
  have h2a : (qc :: (List.replicate 52428801 'x' ++ [qc])).length = 52428803 := by
    rw [List.length_cons, List.length_append, List.length_replicate]
    rfl
  have h2b : (String.mk (qc :: (List.replicate 52428801 'x' ++ [qc]))).length = 52428803 := by
    rw [show ∀ l : List Char, (String.mk l).length = l.length from fun l => rfl]
    exact h2a
  have h2 : (jsonQuote (String.mk (List.replicate 52428801 'x'))).length = 52428803 := by
    show (String.mk (qc :: ((String.mk (List.replicate 52428801 'x')).data.flatMap
        jsonEscapeChar ++ [qc]))).length = _
    rw [flatMap_jsonEscapeChar_replicate]
    exact h2b
  rw [h1, String.length_append, String.length_append, String.length_append,
    String.length_append, h2]
  rfl

/-- C7 amended: the validator rejects non-object payloads, oversized
payloads, and missing or empty platform structures (`chat_messages`
for Claude, `results` for Copilot, and for ChatGPT the absence of both
`mapping` and `conversation_id`, or a non-object `mapping`); but a
ChatGPT payload carrying a `conversation_id` and no `mapping` passes
validation and the normalizer (`extractChatGPTConversation`) throws on
it, so for ChatGPT the absence of the graph mapping alone is a
normalizer failure rather than a validation failure. -/
theorem C7_validation_checks :
    (∀ (data : JSValue) (platform : String),
        ¬ (jsTruthy data = true ∧ jsTypeof data = "object") →
        (Background.validateConversationData data platform).isValid = false) ∧
    (∀ (data : JSValue) (platform : String),
        (jsonStringify data).length > Background.MAX_PAYLOAD_SIZE →
        (Background.validateConversationData data platform).isValid = false) ∧
    (∀ data : JSValue, isArr (propOn data "chat_messages") = false →
        (Background.validateConversationData data "claude").isValid = false) ∧
    (∀ data : JSValue, propOn data "chat_messages" = .arr [] →
        (Background.validateConversationData data "claude").isValid = false) ∧
    (∀ data : JSValue, isArr (propOn data "results") = false →
        (Background.validateConversationData data "copilot").isValid = false) ∧
    (∀ data : JSValue, propOn data "results" = .arr [] →
        (Background.validateConversationData data "copilot").isValid = false) ∧
    (∀ data : JSValue,
        jsTruthy (propOn data "mapping") = false →
        jsTruthy (propOn data "conversation_id") = false →
        (Background.validateConversationData data "chatgpt").isValid = false) ∧
    (∀ data : JSValue,
        jsTruthy (propOn data "mapping") = true →
        jsTypeof (propOn data "mapping") ≠ "object" →
        (Background.validateConversationData data "chatgpt").isValid = false) ∧
    (∀ data : JSValue,
        jsTruthy data = true → jsTypeof data = "object" →
        (jsonStringify data).length ≤ Background.MAX_PAYLOAD_SIZE →
        jsTruthy (propOn data "conversation_id") = true →
        jsTruthy (propOn data "mapping") = false →
        Background.validateConversationData data "chatgpt" = ⟨true, none⟩ ∧
        ChatGPTExtractor.extractChatGPTConversation data = none) := by
  refine ⟨?_, ?_, ?_, ?_, ?_, ?_, ?_, ?_, ?_⟩
  · intro data platform h
    have hcond : (!jsTruthy data || !(jsTypeof data == "object")) = true := by
      by_cases h1 : jsTruthy data = true
      · have h2 : jsTypeof data ≠ "object" := fun h2 => h ⟨h1, h2⟩
        simp [h1, h2]
      · rw [Bool.not_eq_true] at h1
        simp [h1]
    simp [Background.validateConversationData, hcond]
  · intro data platform h
    simp only [Background.validateConversationData]
    repeat' split
    all_goals rfl
  · intro data h
    simp only [Background.validateConversationData]
    repeat' split
    all_goals first | rfl | simp_all [isArr]
  · intro data h
    simp only [Background.validateConversationData]
    repeat' split
    all_goals first | rfl | simp_all [isArr]
  · intro data h
    simp only [Background.validateConversationData]
    repeat' split
    all_goals first | rfl | simp_all [isArr]
  · intro data h
    simp only [Background.validateConversationData]
    repeat' split
    all_goals first | rfl | simp_all [isArr]
  · intro data hm hc
    simp only [Background.validateConversationData]
    repeat' split
    all_goals first | rfl | simp_all
  · intro data hm ho
    simp only [Background.validateConversationData]
    repeat' split
    all_goals first | rfl | simp_all
  · intro data h1 h2 h3 h4 h5
    constructor
    · have hc : (!jsTruthy data || !(jsTypeof data == "object")) = false := by
        simp [h1, h2]
      simp [Background.validateConversationData, hc, Nat.not_lt.mpr h3, h4, h5]
    · simp [ChatGPTExtractor.extractChatGPTConversation, h1, h5]

/-- C7 witness: each validator check applied at a concrete input, and
the concrete mapping-less ChatGPT payload that validates and then
throws in the normalizer. -/
theorem C7_validation_checks_witness :
    (Background.validateConversationData (.str "nope") "claude").isValid = false ∧
    (Background.validateConversationData bigPayload "claude").isValid = false ∧
    (Background.validateConversationData (.obj []) "claude").isValid = false ∧
    (Background.validateConversationData (.obj [("chat_messages", .arr [])])
        "claude").isValid = false ∧
    (Background.validateConversationData (.obj []) "copilot").isValid = false ∧
    (Background.validateConversationData (.obj [("results", .arr [])])
        "copilot").isValid = false ∧
    (Background.validateConversationData (.obj [("other", .num 1)])
        "chatgpt").isValid = false ∧
    (Background.validateConversationData (.obj [("mapping", .str "zzz")])
        "chatgpt").isValid = false ∧
    (Background.validateConversationData (.obj [("conversation_id", .str "x")])
        "chatgpt" = ⟨true, none⟩ ∧
      ChatGPTExtractor.extractChatGPTConversation (.obj [("conversation_id", .str "x")]) =
        none) :=
  ⟨C7_validation_checks.1 (.str "nope") "claude" (by decide),
   C7_validation_checks.2.1 bigPayload "claude" (by rw [bigPayload_length]; decide),
   C7_validation_checks.2.2.1 (.obj []) (by decide),
   C7_validation_checks.2.2.2.1 (.obj [("chat_messages", .arr [])]) (by decide),
   C7_validation_checks.2.2.2.2.1 (.obj []) (by decide),
   C7_validation_checks.2.2.2.2.2.1 (.obj [("results", .arr [])]) (by decide),
   C7_validation_checks.2.2.2.2.2.2.1 (.obj [("other", .num 1)]) (by decide) (by decide),
   C7_validation_checks.2.2.2.2.2.2.2.1 (.obj [("mapping", .str "zzz")])
     (by decide) (by decide),
   C7_validation_checks.2.2.2.2.2.2.2.2 (.obj [("conversation_id", .str "x")])
     (by decide) (by decide) (by decide) (by decide) (by decide)⟩

/-- A truthy property forces the base to be a proper object. -/
theorem obj_of_jsTruthy_propOn {node : JSValue} {k : String}
    (hm : jsTruthy (propOn node k) = true) :
    ∃ fs, node = .obj fs := by
  cases node <;> simp_all [propOn, jsTruthy]

/-- One loop step of the ChatGPT message extractor on a context-only
node is a skip. -/
theorem messageStep_context (cid : JSValue) (k : String) (node : JSValue)
    (hm : jsTruthy (propOn node "message") = true)
    (hctx : isContextNode node = true) :
    ChatGPTExtractor.messageStep cid k node = some none := by
  obtain ⟨fs, rfl⟩ := obj_of_jsTruthy_propOn hm
  simp only [isContextNode] at hctx
  simp [ChatGPTExtractor.messageStep, hm, hctx]

/-- One loop step on a non-context message node whose text extraction
succeeds emits a row whose `parent_id` is the parent pointer of the
node (empty string when absent). -/
theorem messageStep_emit (cid : JSValue) (k : String) (node : JSValue)
    (hm : jsTruthy (propOn node "message") = true)
    (hctx : isContextNode node = false) (text : JSValue)
    (htext : ChatGPTExtractor.extractTextFromContent
        (propOn (propOn node "message") "content") = some text) :
    ChatGPTExtractor.messageStep cid k node =
      some (some (ChatGPTExtractor.messageRowOf cid k node text)) ∧
    lookupField (ChatGPTExtractor.messageRowOf cid k node text) "parent_id" =
      jsOr (propOn node "parent") (.str "") := by
  obtain ⟨fs, rfl⟩ := obj_of_jsTruthy_propOn hm
  simp only [isContextNode] at hctx
  constructor
  · simp [ChatGPTExtractor.messageStep, hm, hctx, htext]
  · simp [ChatGPTExtractor.messageRowOf, lookupField]

/-- One loop step on a non-context message node whose text extraction
throws, throws. -/
theorem messageStep_throws (cid : JSValue) (k : String) (node : JSValue)
    (hm : jsTruthy (propOn node "message") = true)
    (hctx : isContextNode node = false)
    (htext : ChatGPTExtractor.extractTextFromContent
        (propOn (propOn node "message") "content") = none) :
    ChatGPTExtractor.messageStep cid k node = none := by
  obtain ⟨fs, rfl⟩ := obj_of_jsTruthy_propOn hm
  simp only [isContextNode] at hctx
  simp [ChatGPTExtractor.messageStep, hm, hctx, htext]

/-- A throwing step anywhere in the mapping aborts the whole message
extraction loop. -/
theorem extractMessagesLoop_none_of_mem (cid : JSValue)
    (entries : List (String × JSValue)) (e : String × JSValue)
    (he : e ∈ entries)
    (hth : ChatGPTExtractor.messageStep cid e.1 e.2 = none) :
    ChatGPTExtractor.extractMessagesLoop cid entries = none := by
  induction entries with
  | nil => cases he
  | cons a rest ih =>
      obtain ⟨k, node⟩ := a
      rcases List.mem_cons.mp he with rfl | hmem
      · simp [ChatGPTExtractor.extractMessagesLoop, hth]
      · cases hs : ChatGPTExtractor.messageStep cid k node with
        | none => simp [ChatGPTExtractor.extractMessagesLoop, hs]
        | some r => simp [ChatGPTExtractor.extractMessagesLoop, hs, ih hmem]

/-- A successful run of the message extraction loop is the
`filterMap` of its per-node steps. -/
theorem extractMessagesLoop_some (cid : JSValue) :
    ∀ (entries : List (String × JSValue)) (msgs : List Row),
      ChatGPTExtractor.extractMessagesLoop cid entries = some msgs →
      msgs = entries.filterMap
        (fun e => (ChatGPTExtractor.messageStep cid e.1 e.2).bind id) := by
  intro entries
  induction entries with
  | nil =>
      intro msgs h
      simp [ChatGPTExtractor.extractMessagesLoop] at h
      simp [h.symm]
  | cons a rest ih =>
      obtain ⟨k, node⟩ := a
      intro msgs h
      unfold ChatGPTExtractor.extractMessagesLoop at h
      obtain ⟨r, hr, h⟩ := Option.bind_eq_some.mp h
      obtain ⟨rs, hrs, h⟩ := Option.bind_eq_some.mp h
      rw [List.filterMap_cons]
      cases r with
      | none =>
          simp only [pure, Option.some_inj] at h
          simp [hr, ih rs hrs, ← h]
      | some row =>
          simp only [pure, Option.some_inj] at h
          simp [hr, ih rs hrs, ← h]

/-- Counting and parent correspondence for the per-node steps of the
message extraction loop, over nodes that carry messages and do not
throw. -/
theorem filterMap_step_counts (cid : JSValue) :
    ∀ (entries : List (String × JSValue)),
      (∀ e ∈ entries, jsTruthy (propOn e.2 "message") = true) →
      (∀ e ∈ entries, ChatGPTExtractor.messageStep cid e.1 e.2 ≠ none) →
      (entries.filterMap
          (fun e => (ChatGPTExtractor.messageStep cid e.1 e.2).bind id)).length +
          (entries.filter (fun e => isContextNode e.2)).length = entries.length ∧
      (entries.filterMap
          (fun e => (ChatGPTExtractor.messageStep cid e.1 e.2).bind id)).map
            (fun r => lookupField r "parent_id") =
        (entries.filter (fun e => !isContextNode e.2)).map
          (fun e => jsOr (propOn e.2 "parent") (.str "")) := by
  intro entries
  induction entries with
  | nil => intro _ _; simp
  | cons a rest ih =>
      obtain ⟨k, node⟩ := a
      intro hmsg hnothrow
      have hm := hmsg (k, node) (List.mem_cons_self _ _)
      have hnt := hnothrow (k, node) (List.mem_cons_self _ _)
      obtain ⟨ihlen, ihmap⟩ := ih (fun e he => hmsg e (List.mem_cons_of_mem _ he))
        (fun e he => hnothrow e (List.mem_cons_of_mem _ he))
      simp only [Function.id_def] at ihlen ihmap ⊢
      by_cases hctx : isContextNode node
      · have hstep := messageStep_context cid k node hm hctx
        rw [List.filterMap_cons, List.filter_cons, List.filter_cons]
        simp only [hstep, hctx]
        constructor
        · simp [ihlen]
          omega
        · simp [ihmap]
      · have hctxf : isContextNode node = false := by simpa using hctx
        cases htext : ChatGPTExtractor.extractTextFromContent
            (propOn (propOn node "message") "content") with
        | none => exact absurd (messageStep_throws cid k node hm hctxf htext) hnt
        | some text =>
            obtain ⟨hstep, hpar⟩ := messageStep_emit cid k node hm hctxf text htext
            rw [List.filterMap_cons, List.filter_cons, List.filter_cons]
            simp only [hstep, hctxf]
            constructor
            · simp [ihlen]
              omega
            · simp [ihmap, hpar]

/-- On a payload whose `mapping` is an object, the message extractor is
its loop over the mapping entries. -/
theorem extractConversationMessages_eq_loop (cd : JSValue)
    (entries : List (String × JSValue))
    (hmap : propOn cd "mapping" = .obj entries) :
    ChatGPTExtractor.extractConversationMessages cd =
      ChatGPTExtractor.extractMessagesLoop (conversationIdOf cd) entries := by
  have hget : getProp cd "mapping" = some (.obj entries) := by
    cases cd <;> simp_all [getProp, propOn]
  unfold ChatGPTExtractor.extractConversationMessages
  rw [hget]
  simp [jsOr, jsTruthy, entriesForIn, conversationIdOf]

/-- C5: on a ChatGPT-shape payload whose mapping nodes each carry a
message, a successful run of `extractConversationMessages` emits
exactly one record per node minus the context-only nodes (which are
skipped, never emitted as blank rows), and in order each emitted
record's `parent_id` equals the source node's parent pointer, with the
empty string when the pointer is absent. -/
theorem C5_graph_completeness :
    ∀ (conversationData : JSValue) (entries : List (String × JSValue)) (msgs : List Row),
      propOn conversationData "mapping" = .obj entries →
      ChatGPTExtractor.extractConversationMessages conversationData = some msgs →
      (∀ e ∈ entries, jsTruthy (propOn e.2 "message") = true) →
      msgs.length + (entries.filter (fun e => isContextNode e.2)).length =
          entries.length ∧
      msgs.map (fun r => lookupField r "parent_id") =
        (entries.filter (fun e => !isContextNode e.2)).map
          (fun e => jsOr (propOn e.2 "parent") (.str "")) := by
  intro cd entries msgs hmap hrun hmsg
  rw [extractConversationMessages_eq_loop cd entries hmap] at hrun
  have hnothrow : ∀ e ∈ entries,
      ChatGPTExtractor.messageStep (conversationIdOf cd) e.1 e.2 ≠ none := by
    intro e he hth
    rw [extractMessagesLoop_none_of_mem (conversationIdOf cd) entries e he hth] at hrun
    simp at hrun
  have hchar := extractMessagesLoop_some (conversationIdOf cd) entries msgs hrun
  subst hchar
  exact filterMap_step_counts (conversationIdOf cd) entries hmsg hnothrow

/-- The mapping entries of the three-node witness payload: two proper
messages (the second with a parent pointer) and one context-only
node. -/
def c5Entries : List (String × JSValue) :=
  [("n1", .obj [("message", .obj [("author", .obj [("role", .str "user")]),
      ("content", .obj [("content_type", .str "text"), ("parts", .arr [.str "hi"])])])]),
   ("n2", .obj [("parent", .str "n1"), ("message", .obj [("id", .str "m2"),
      ("author", .obj [("role", .str "assistant")]),
      ("content", .obj [("content_type", .str "text"), ("parts", .arr [.str "yo"])])])]),
   ("n3", .obj [("parent", .str "n2"), ("message", .obj [
      ("content", .obj [("content_type", .str "user_editable_context")])])])]

/-- The three-node witness payload. -/
def c5Payload : JSValue :=
  .obj [("conversation_id", .str "cv"), ("mapping", .obj c5Entries)]

/-- The records extracted from `c5Payload`. -/
def c5Msgs : List Row :=
  [[("conversation_id", .str "cv"), ("node_id", .str "n1"), ("parent_id", .str ""),
    ("author_role", .str "user"), ("content_type", .str "text"), ("text", .str "hi"),
    ("has_image", .bool false), ("image_ids", .str ""), ("create_time", .str ""),
    ("status", .str ""), ("end_turn", .bool false), ("is_visually_hidden", .bool false),
    ("model_slug", .str ""), ("tool_name", .str "")],
   [("conversation_id", .str "cv"), ("node_id", .str "m2"), ("parent_id", .str "n1"),
    ("author_role", .str "assistant"), ("content_type", .str "text"), ("text", .str "yo"),
    ("has_image", .bool false), ("image_ids", .str ""), ("create_time", .str ""),
    ("status", .str ""), ("end_turn", .bool false), ("is_visually_hidden", .bool false),
    ("model_slug", .str ""), ("tool_name", .str "")]]

/-- C5 witness: the count and parent correspondence on the concrete
three-node payload. -/
theorem C5_graph_completeness_witness :
    c5Msgs.length + (c5Entries.filter (fun e => isContextNode e.2)).length =
        c5Entries.length ∧
    c5Msgs.map (fun r => lookupField r "parent_id") =
      (c5Entries.filter (fun e => !isContextNode e.2)).map
        (fun e => jsOr (propOn e.2 "parent") (.str "")) :=
  C5_graph_completeness c5Payload c5Entries c5Msgs rfl rfl (by decide)

/-- The throwing node of the C8 scenario: a multimodal parts list with
a `null` item makes the unguarded `part.content_type` access throw. -/
def c8BadNode : JSValue :=
  .obj [("message", .obj [("content", .obj
    [("content_type", .str "multimodal_text"), ("parts", .arr [.null])])])]

/-- A perfectly extractable message node. -/
def c8GoodNode : JSValue :=
  .obj [("parent", .str "p0"), ("message", .obj [("id", .str "m2"),
    ("content", .obj [("content_type", .str "text"), ("parts", .arr [.str "ok"])])])]

/-- C8 counterexample: with one bad and one good message node, the
ChatGPT extractor emits nothing at all (the single throwing message
aborts the whole extraction), although the good node alone yields one
record — so more than the one failing message record is lost. -/
theorem C8_chatgpt_abort_counterexample :
    ChatGPTExtractor.extractConversationMessages
        (.obj [("mapping", .obj [("bad", c8BadNode), ("good", c8GoodNode)])]) = none ∧
    (ChatGPTExtractor.extractConversationMessages
        (.obj [("mapping", .obj [("good", c8GoodNode)])])).map List.length = some 1 :=
  ⟨rfl, rfl⟩

/-- C8 amended: the Claude and Copilot handlers catch a throwing
message and emit exactly the rows of the remaining messages (at most
the one failing row is lost); the ChatGPT extractor has no per-message
catch, and one throwing step anywhere in the mapping aborts the whole
message extraction. -/
theorem C8_per_message_isolation :
    (∀ (u n : JSValue) (pre post : List JSValue) (bad : JSValue),
        Background.ClaudeHandler.messageRow (jsOr u (.str "")) (jsOr n (.str "")) bad =
          none →
        Background.ClaudeHandler.flattenConversationData
            (.obj [("uuid", u), ("name", n), ("chat_messages", .arr (pre ++ bad :: post))]) =
          Background.ClaudeHandler.flattenConversationData
            (.obj [("uuid", u), ("name", n), ("chat_messages", .arr (pre ++ post))])) ∧
    (∀ (cid : JSValue) (pre post : List JSValue) (bad : JSValue),
        Background.CopilotHandler.resultRow (jsOr cid (.str "")) bad = none →
        Background.CopilotHandler.flattenConversationData
            (.obj [("conversationId", cid), ("results", .arr (pre ++ bad :: post))]) =
          Background.CopilotHandler.flattenConversationData
            (.obj [("conversationId", cid), ("results", .arr (pre ++ post))])) ∧
    (∀ (conversationData : JSValue) (entries : List (String × JSValue))
        (e : String × JSValue),
        propOn conversationData "mapping" = .obj entries →
        e ∈ entries →
        ChatGPTExtractor.messageStep (conversationIdOf conversationData) e.1 e.2 = none →
        ChatGPTExtractor.extractConversationMessages conversationData = none) := by
  refine ⟨?_, ?_, ?_⟩
  · intro u n pre post bad hbad
    simp [Background.ClaudeHandler.flattenConversationData, propOn, lookupField,
      jsTruthy, List.filterMap_append, List.filterMap_cons, hbad]
  · intro cid pre post bad hbad
    simp [Background.CopilotHandler.flattenConversationData, propOn, lookupField,
      jsTruthy, List.filterMap_append, List.filterMap_cons, hbad]
  · intro cd entries e hmap he hstep
    rw [extractConversationMessages_eq_loop cd entries hmap]
    exact extractMessagesLoop_none_of_mem _ entries e he hstep

/-- Character-level rendering of one CSV record: RFC 4180 escaped
fields joined by commas. -/
def recordChars : List String → List Char
  | [] => []
  | [s] => (rfcEscape s).data
  | s :: rest => (rfcEscape s).data ++ ',' :: recordChars rest

/-- Character-level rendering of a CSV table: records joined by line
feeds. -/
def tableChars : List (List String) → List Char
  | [] => []
  | [row] => recordChars row
  | row :: rest => recordChars row ++ '\n' :: tableChars rest

/-- `String.mk` inverts `String.data`. -/
theorem string_mk_data (s : String) : String.mk s.data = s := rfl

/-- String append is list append on the underlying characters. -/
theorem string_data_append (a b : String) : (a ++ b).data = a.data ++ b.data := rfl

/-- Background field escaping is pure RFC 4180 escaping of the string
form whenever the string form has no dangerous leading character. -/
theorem escapeCSVField_eq_rfcEscape (v : JSValue)
    (h : dangerousStart (fieldToString v) = false) :
    Background.escapeCSVField v = rfcEscape (fieldToString v) := by
  cases v with
  | null => rfl
  | undef => rfl
  | bool b =>
      simp only [Background.escapeCSVField, fieldToString] at h ⊢
      rw [h]
      rfl
  | num n =>
      simp only [Background.escapeCSVField, fieldToString] at h ⊢
      rw [h]
      rfl
  | str s =>
      simp only [Background.escapeCSVField, fieldToString] at h ⊢
      rw [h]
      rfl
  | arr xs =>
      simp only [Background.escapeCSVField, fieldToString] at h ⊢
      rw [h]
      rfl
  | obj fs =>
      simp only [Background.escapeCSVField, fieldToString] at h ⊢
      rw [h]
      rfl

/-- The quoted-form reader inverts quote doubling: reading the escaped
body followed by the closing quote yields the original characters, for
any continuation that does not begin with another quote. -/
theorem parseQuoted_escQuotes :
    ∀ (l rest : List Char), rest.head? ≠ some qc →
      parseQuoted (escQuotes l ++ qc :: rest) = (l, rest)
  | [], rest => by
      intro hrest
      cases rest with
      | nil => simp [escQuotes, parseQuoted]
      | cons d cs2 =>
          have hd : d ≠ qc := by
            intro hdq
            exact hrest (by simp [hdq])
          simp [escQuotes, parseQuoted, hd]
  | c :: l, rest => by
      intro hrest
      by_cases hc : c = qc
      · subst hc
        have hchars : escQuotes (qc :: l) ++ qc :: rest =
            qc :: qc :: (escQuotes l ++ qc :: rest) := by
          simp [escQuotes]
        rw [hchars, parseQuoted]
        simp [parseQuoted_escQuotes l rest hrest]
      · have hchars : escQuotes (c :: l) ++ qc :: rest =
            c :: (escQuotes l ++ qc :: rest) := by
          simp [escQuotes, hc]
        rw [hchars]
        cases hinner : escQuotes l ++ qc :: rest with
        | nil => simp at hinner
        | cons d cs2 =>
            have hIH := parseQuoted_escQuotes l rest hrest
            rw [hinner] at hIH
            simp [parseQuoted, hc, hIH]

/-- A continuation position that may legally follow a rendered field:
the end of input, a comma, or a line feed. -/
def delimHead (rest : List Char) : Prop :=
  rest = [] ∨ rest.head? = some ',' ∨ rest.head? = some '\n'

/-- The unquoted reader stops exactly at the first delimiter. -/
theorem parseUnquoted_clean :
    ∀ (l rest : List Char), (∀ c ∈ l, c ≠ ',' ∧ c ≠ '\n') → delimHead rest →
      parseUnquoted (l ++ rest) = (l, rest)
  | [], rest => by
      intro _ hrest
      rcases hrest with rfl | hcomma | hnl
      · simp [parseUnquoted]
      · cases rest with
        | nil => simp at hcomma
        | cons c cs =>
            simp only [List.head?_cons, Option.some_inj] at hcomma
            simp [parseUnquoted, hcomma]
      · cases rest with
        | nil => simp at hnl
        | cons c cs =>
            simp only [List.head?_cons, Option.some_inj] at hnl
            simp [parseUnquoted, hnl]
  | c :: l, rest => by
      intro hclean hrest
      have hc := hclean c (List.mem_cons_self _ _)
      have hIH := parseUnquoted_clean l rest
        (fun x hx => hclean x (List.mem_cons_of_mem _ hx)) hrest
      have hcond : ¬ (c = ',' ∨ c = '\n') := by
        rintro (rfl | rfl)
        · exact hc.1 rfl
        · exact hc.2 rfl
      simp [parseUnquoted, hcond, hIH]

/-- Reading a rendered field consumes exactly the field: the RFC 4180
escape of any string parses back to that string, leaving the
continuation untouched. -/
theorem parseField_rfcEscape (s : String) (rest : List Char) (hrest : delimHead rest) :
    parseField ((rfcEscape s).data ++ rest) = (s.data, rest) := by
  have hrestq : rest.head? ≠ some qc := by
    intro heq
    rcases hrest with rfl | h | h
    · simp at heq
    · rw [h] at heq
      exact absurd (Option.some_inj.mp heq) (by decide)
    · rw [h] at heq
      exact absurd (Option.some_inj.mp heq) (by decide)
  by_cases hq : (s.data.contains ',' || s.data.contains qc ||
      s.data.contains '\n' || s.data.contains '\r') = true
  · have hesc : rfcEscape s = quoteWrap s := by
      simp only [rfcEscape]
      rw [if_pos hq]
    rw [hesc]
    have hassoc : (quoteWrap s).data ++ rest =
        qc :: (escQuotes s.data ++ qc :: rest) := by
      show (qc :: (escQuotes s.data ++ [qc])) ++ rest = _
      simp
    rw [hassoc]
    simp [parseField, parseQuoted_escQuotes s.data rest hrestq]
  · have hesc : rfcEscape s = s := by
      simp only [rfcEscape]
      rw [if_neg hq]
    rw [hesc]
    simp only [Bool.or_eq_true, not_or, Bool.not_eq_true] at hq
    obtain ⟨⟨⟨hcm, hcq⟩, hcn⟩, hcr⟩ := hq
    have hnotmem : ∀ (a : Char), s.data.contains a = false → a ∉ s.data :=
      fun a ha => by simpa using ha
    cases hd : s.data with
    | nil =>
        rcases hrest with rfl | h | h
        · simp [parseField]
        · cases rest with
          | nil => simp at h
          | cons c cs =>
              have hc : c = ',' := by simpa using h
              subst hc
              have hne : (',' : Char) ≠ qc := by decide
              simp [parseField, parseUnquoted, hne]
        · cases rest with
          | nil => simp at h
          | cons c cs =>
              have hc : c = '\n' := by simpa using h
              subst hc
              have hne : ('\n' : Char) ≠ qc := by decide
              simp [parseField, parseUnquoted, hne]
    | cons c l =>
        have hcmem : c ∈ s.data := by
          rw [hd]
          exact List.mem_cons_self _ _
        have hcqc : c ≠ qc := by
          rintro rfl
          exact (hnotmem qc hcq) hcmem
        have hclean : ∀ x ∈ c :: l, x ≠ ',' ∧ x ≠ '\n' := by
          intro x hx
          have hxs : x ∈ s.data := by
            rw [hd]
            exact hx
          constructor <;> rintro rfl
          · exact (hnotmem ',' hcm) hxs
          · exact (hnotmem '\n' hcn) hxs
        have hun := parseUnquoted_clean (c :: l) rest hclean hrest
        simp only [List.cons_append] at hun ⊢
        simp [parseField, hcqc, hun]

/-- A record never has more fields than rendered characters plus
one. -/
theorem length_le_recordChars : ∀ row : List String,
    row.length ≤ (recordChars row).length + 1
  | [] => by simp [recordChars]
  | [s] => by simp [recordChars]
  | s :: t :: rest => by
      have ih := length_le_recordChars (t :: rest)
      simp only [recordChars, List.length_cons, List.length_append] at ih ⊢
      omega

/-- Reading a rendered record at the end of input returns its
fields. -/
theorem parseRecordF_render_eof :
    ∀ (fuel : Nat) (row : List String), row ≠ [] → row.length ≤ fuel →
      parseRecordF fuel (recordChars row) = (row, [])
  | 0, row => by
      intro hne hlen
      cases row with
      | nil => exact absurd rfl hne
      | cons s rest => simp at hlen
  | fuel + 1, [] => fun hne _ => absurd rfl hne
  | fuel + 1, [s] => by
      intro _ _
      have hpf : parseField ((rfcEscape s).data) = (s.data, []) := by
        have h := parseField_rfcEscape s [] (Or.inl rfl)
        simpa using h
      simp [parseRecordF, recordChars, hpf, string_mk_data]
  | fuel + 1, s :: t :: rest => by
      intro _ hlen
      have hIH := parseRecordF_render_eof fuel (t :: rest) (by simp)
        (by simp only [List.length_cons] at hlen ⊢; omega)
      have hpf : parseField ((rfcEscape s).data ++ ',' :: recordChars (t :: rest)) =
          (s.data, ',' :: recordChars (t :: rest)) :=
        parseField_rfcEscape s _ (Or.inr (Or.inl rfl))
      simp [parseRecordF, recordChars, hpf, string_mk_data, hIH]

/-- Reading a rendered record followed by a line feed returns its
fields and the continuation. -/
theorem parseRecordF_render_nl :
    ∀ (fuel : Nat) (row : List String) (rest : List Char), row ≠ [] →
      row.length ≤ fuel →
      parseRecordF fuel (recordChars row ++ '\n' :: rest) = (row, rest)
  | 0, row, rest => by
      intro hne hlen
      cases row with
      | nil => exact absurd rfl hne
      | cons s r2 => simp at hlen
  | fuel + 1, [], rest => fun hne _ => absurd rfl hne
  | fuel + 1, [s], rest => by
      intro _ _
      have hpf : parseField ((rfcEscape s).data ++ '\n' :: rest) =
          (s.data, '\n' :: rest) :=
        parseField_rfcEscape s _ (Or.inr (Or.inr rfl))
      have hnc : ('\n' : Char) ≠ ',' := by decide
      simp [parseRecordF, recordChars, hpf, string_mk_data, hnc]
  | fuel + 1, s :: t :: row2, rest => by
      intro _ hlen
      have hIH := parseRecordF_render_nl fuel (t :: row2) rest (by simp)
        (by simp only [List.length_cons] at hlen ⊢; omega)
      have hpf : parseField ((rfcEscape s).data ++
            ',' :: (recordChars (t :: row2) ++ '\n' :: rest)) =
          (s.data, ',' :: (recordChars (t :: row2) ++ '\n' :: rest)) :=
        parseField_rfcEscape s _ (Or.inr (Or.inl rfl))
      have hchars : recordChars (s :: t :: row2) ++ '\n' :: rest =
          (rfcEscape s).data ++ ',' :: (recordChars (t :: row2) ++ '\n' :: rest) := by
        simp [recordChars]
      rw [hchars]
      simp [parseRecordF, hpf, string_mk_data, hIH]

/-- A non-degenerate rendered table is never the empty character
list. -/
theorem rfcEscape_data_ne_nil (s : String) (hs : s ≠ "") : (rfcEscape s).data ≠ [] := by
  unfold rfcEscape
  split
  · show (quoteWrap s).data ≠ []
    show qc :: _ ≠ []
    simp
  · intro h
    apply hs
    cases s
    simp_all

/-- The rendered table of nonempty rows (whose last record is not the
lone empty field) is nonempty. -/
theorem tableChars_ne_nil :
    ∀ rows : List (List String), rows ≠ [] → (∀ r ∈ rows, r ≠ []) →
      rows.getLast? ≠ some [""] → tableChars rows ≠ []
  | [] => fun hne _ _ => absurd rfl hne
  | [row] => by
      intro _ hr hlast
      have hrow := hr row (by simp)
      have hrow2 : row ≠ [""] := by
        intro heq
        exact hlast (by simp [heq])
      cases row with
      | nil => exact absurd rfl hrow
      | cons s tail =>
          cases tail with
          | nil =>
              have hs : s ≠ "" := by
                rintro rfl
                exact hrow2 rfl
              simpa [tableChars, recordChars] using rfcEscape_data_ne_nil s hs
          | cons t tail2 => simp [tableChars, recordChars]
  | row :: row2 :: rest => by
      intro _ _ _
      simp [tableChars]

/-- Reading a rendered table with enough fuel returns all its rows. -/
theorem parseRecordsF_render :
    ∀ (fuel : Nat) (rows : List (List String)), rows ≠ [] →
      (∀ r ∈ rows, r ≠ []) → rows.getLast? ≠ some [""] →
      (tableChars rows).length < fuel →
      parseRecordsF fuel (tableChars rows) = rows
  | 0, rows => by
      intro _ _ _ hlen
      omega
  | fuel + 1, [] => fun hne _ _ _ => absurd rfl hne
  | fuel + 1, [row] => by
      intro _ hr hlast hlen
      have hrow := hr row (by simp)
      have hrlen : row.length ≤ fuel + 1 := by
        have hb := length_le_recordChars row
        simp only [tableChars] at hlen
        omega
      have hrec := parseRecordF_render_eof (fuel + 1) row hrow hrlen
      simp [parseRecordsF, tableChars, hrec]
  | fuel + 1, row :: row2 :: rest => by
      intro _ hr hlast hlen
      have hrow := hr row (by simp)
      have htab : tableChars (row :: row2 :: rest) =
          recordChars row ++ '\n' :: tableChars (row2 :: rest) := rfl
      rw [htab] at hlen
      simp only [List.length_append, List.length_cons] at hlen
      have hrlen : row.length ≤ fuel + 1 := by
        have hb := length_le_recordChars row
        omega
      have hrec := parseRecordF_render_nl (fuel + 1) row (tableChars (row2 :: rest))
        hrow hrlen
      have hlast2 : (row2 :: rest).getLast? ≠ some [""] := by
        rw [List.getLast?_cons_cons] at hlast
        exact hlast
      have hne2 : tableChars (row2 :: rest) ≠ [] :=
        tableChars_ne_nil (row2 :: rest) (by simp)
          (fun r hrm => hr r (by simp [hrm])) hlast2
      have hIH := parseRecordsF_render fuel (row2 :: rest) (by simp)
        (fun r hrm => hr r (by simp [hrm])) hlast2 (by omega)
      have hempty : (tableChars (row2 :: rest)).isEmpty = false := by
        cases htc : tableChars (row2 :: rest) with
        | nil => exact absurd htc hne2
        | cons a l => rfl
      rw [htab]
      simp [parseRecordsF, hrec, hempty, hIH]

/-- Characters of the comma-joined escaped fields of a record. -/
theorem joinSep_comma_data : ∀ row : List String,
    (joinSep "," (row.map rfcEscape)).data = recordChars row
  | [] => rfl
  | [s] => rfl
  | s :: t :: rest => by
      have ih := joinSep_comma_data (t :: rest)
      show ((rfcEscape s ++ ",") ++ joinSep "," ((t :: rest).map rfcEscape)).data = _
      rw [string_data_append, string_data_append, ih]
      simp [recordChars]

/-- Characters of the newline-joined rendered records of a table. -/
theorem joinSep_nl_data : ∀ rows : List (List String),
    (joinSep "\n" (rows.map (fun row => joinSep "," (row.map rfcEscape)))).data =
      tableChars rows
  | [] => rfl
  | [row] => by
      show (joinSep "," (row.map rfcEscape)).data = _
      rw [joinSep_comma_data]
      rfl
  | row :: row2 :: rest => by
      have ih := joinSep_nl_data (row2 :: rest)
      show ((joinSep "," (row.map rfcEscape) ++ "\n") ++
        joinSep "\n" ((row2 :: rest).map (fun r => joinSep "," (r.map rfcEscape)))).data = _
      rw [string_data_append, string_data_append, ih, joinSep_comma_data]
      simp [tableChars]

/-- When no cell of the serialized table starts with a formula-trigger
character, the characters emitted by `generateCSV` without explicit
headers are exactly the RFC 4180 rendering of `stringTable`. -/
theorem generateCSV_data_eq (r0 : Row) (rest : List Row)
    (hdanger : ∀ row ∈ stringTable (r0 :: rest), ∀ s ∈ row, dangerousStart s = false) :
    (Background.generateCSV (r0 :: rest) none).data = tableChars (stringTable (r0 :: rest)) := by
  have hhead : ∀ h ∈ r0.map Prod.fst, dangerousStart h = false := by
    intro h hh
    exact hdanger (r0.map Prod.fst) (by simp [stringTable]) h hh
  have hcell : ∀ r ∈ r0 :: rest, ∀ h ∈ r0.map Prod.fst,
      dangerousStart (fieldToString (lookupField r h)) = false := by
    intro r hr h hh
    refine hdanger ((r0.map Prod.fst).map (fun k => fieldToString (lookupField r k)))
      ?_ _ (List.mem_map_of_mem _ hh)
    simp only [stringTable, List.mem_cons]
    exact Or.inr (List.mem_map_of_mem _ hr)
  have hrows : (Background.generateCSV (r0 :: rest) none) =
      joinSep "\n" ((stringTable (r0 :: rest)).map
        (fun row => joinSep "," (row.map rfcEscape))) := by
    show joinSep "\n"
        (joinSep "," ((r0.map Prod.fst).map (fun h => Background.escapeCSVField (.str h))) ::
          (r0 :: rest).map (fun r => joinSep ","
            ((r0.map Prod.fst).map (fun h => Background.escapeCSVField (lookupField r h))))) = _
    simp only [stringTable, List.map_cons, List.map_map]
    have h1 : List.map ((fun h => Background.escapeCSVField (.str h)) ∘ Prod.fst) r0 =
        List.map (rfcEscape ∘ Prod.fst) r0 := by
      refine List.map_congr_left ?_
      intro p hp
      have hh : p.1 ∈ r0.map Prod.fst := List.mem_map_of_mem _ hp
      have he := escapeCSVField_eq_rfcEscape (.str p.1) (hhead p.1 hh)
      simpa [fieldToString] using he
    have hone : ∀ r ∈ r0 :: rest,
        List.map ((fun h => Background.escapeCSVField (lookupField r h)) ∘ Prod.fst) r0 =
        List.map (rfcEscape ∘ (fun h => fieldToString (lookupField r h)) ∘ Prod.fst) r0 := by
      intro r hr
      refine List.map_congr_left ?_
      intro p hp
      have hh : p.1 ∈ r0.map Prod.fst := List.mem_map_of_mem _ hp
      exact escapeCSVField_eq_rfcEscape (lookupField r p.1) (hcell r hr p.1 hh)
    have htail : List.map (fun r => joinSep ","
          (List.map ((fun h => Background.escapeCSVField (lookupField r h)) ∘ Prod.fst) r0))
          rest =
        List.map ((fun row => joinSep "," (List.map rfcEscape row)) ∘ fun r =>
          List.map ((fun h => fieldToString (lookupField r h)) ∘ Prod.fst) r0) rest := by
      refine List.map_congr_left ?_
      intro r hr
      have h4 := hone r (by simp [hr])
      simp only [Function.comp_def, List.map_map] at h4 ⊢
      rw [h4]
    rw [h1, hone r0 (by simp), htail]
  rw [hrows, joinSep_nl_data]

/-- C8 witness: a `null` Claude message and a `null` Copilot result
are each skipped while the good message still produces its row, and
the concrete two-node ChatGPT payload aborts. -/
theorem C8_per_message_isolation_witness :
    Background.ClaudeHandler.flattenConversationData
        (.obj [("uuid", .str "c1"), ("name", .str "N"),
               ("chat_messages", .arr ([] ++ JSValue.null ::
                 [.obj [("uuid", .str "g1"),
                        ("content", .arr [.obj [("type", .str "text"),
                                                ("text", .str "ok")]])]]))]) =
      Background.ClaudeHandler.flattenConversationData
        (.obj [("uuid", .str "c1"), ("name", .str "N"),
               ("chat_messages", .arr ([] ++
                 [.obj [("uuid", .str "g1"),
                        ("content", .arr [.obj [("type", .str "text"),
                                                ("text", .str "ok")]])]]))]) ∧
    Background.CopilotHandler.flattenConversationData
        (.obj [("conversationId", .str "cv1"),
               ("results", .arr ([] ++ JSValue.null ::
                 [.obj [("id", .str "r1"), ("author", .obj [("type", .str "ai")]),
                        ("content", .arr [.obj [("type", .str "text"),
                                                ("text", .str "hello"),
                                                ("partId", .str "p1")]])]]))]) =
      Background.CopilotHandler.flattenConversationData
        (.obj [("conversationId", .str "cv1"),
               ("results", .arr ([] ++
                 [.obj [("id", .str "r1"), ("author", .obj [("type", .str "ai")]),
                        ("content", .arr [.obj [("type", .str "text"),
                                                ("text", .str "hello"),
                                                ("partId", .str "p1")]])]]))]) ∧
    ChatGPTExtractor.extractConversationMessages
        (.obj [("mapping", .obj [("bad", c8BadNode), ("good", c8GoodNode)])]) = none :=
  ⟨C8_per_message_isolation.1 (.str "c1") (.str "N") []
      [.obj [("uuid", .str "g1"),
             ("content", .arr [.obj [("type", .str "text"), ("text", .str "ok")]])]]
      JSValue.null rfl,
   C8_per_message_isolation.2.1 (.str "cv1") []
      [.obj [("id", .str "r1"), ("author", .obj [("type", .str "ai")]),
             ("content", .arr [.obj [("type", .str "text"), ("text", .str "hello"),
                                     ("partId", .str "p1")]])]]
      JSValue.null rfl,
   C8_per_message_isolation.2.2
      (.obj [("mapping", .obj [("bad", c8BadNode), ("good", c8GoodNode)])])
      [("bad", c8BadNode), ("good", c8GoodNode)] ("bad", c8BadNode)
      rfl (by decide) rfl⟩

/-- A concrete table exercising commas, double quotes and embedded
newlines in its cells, plus a key missing from the second row. -/
def c2Table : List Row :=
  [[("a", .str "x,y"),
    ("b", .str ("He said " ++ String.mk [qc] ++ "hi" ++ String.mk [qc])),
    ("c", .str "l1\nl2")],
   [("a", .num 5), ("c", .bool true)]]

/-- C2: encoding a table with `generateCSV` and parsing the result with
a reference RFC 4180 parser reproduces the serialized cell values
exactly, for cells containing commas, double quotes and embedded
newlines — provided no cell starts with a formula-trigger character
(lead `=`, `+`, `-`, `@`, tab or carriage return), the header row is
nonempty, and the last record is not the lone empty field. -/
theorem C2_roundtrip (data : List Row) (hne : data ≠ [])
    (hfields : ∀ row ∈ stringTable data, row ≠ [])
    (hdanger : ∀ row ∈ stringTable data, ∀ s ∈ row, dangerousStart s = false)
    (hlast : (stringTable data).getLast? ≠ some [""]) :
    parseCSV (Background.generateCSV data none) = stringTable data := by
  cases data with
  | nil => exact absurd rfl hne
  | cons r0 rest =>
      have hd := generateCSV_data_eq r0 rest hdanger
      show parseRecordsF ((Background.generateCSV (r0 :: rest) none).data.length + 1)
          (Background.generateCSV (r0 :: rest) none).data = _
      rw [hd]
      exact parseRecordsF_render _ _ (by simp [stringTable]) hfields hlast (by omega)

/-- C2 witness: on the concrete table the hypotheses hold and the
round trip is exact. -/
theorem C2_roundtrip_witness :
    (c2Table ≠ [] ∧ (∀ row ∈ stringTable c2Table, row ≠ []) ∧
      (∀ row ∈ stringTable c2Table, ∀ s ∈ row, dangerousStart s = false) ∧
      (stringTable c2Table).getLast? ≠ some [""]) ∧
    parseCSV (Background.generateCSV c2Table none) = stringTable c2Table :=
  ⟨⟨by decide, by decide, by decide, by decide⟩,
   C2_roundtrip c2Table (by decide) (by decide) (by decide) (by decide)⟩

/-- C2 counterexample: a cell whose value starts with `=` comes back
from the round trip with a prepended apostrophe (the injection
neutralization of `escapeCSVField`), not character for character. -/
theorem C2_injection_roundtrip_counterexample :
    parseCSV (Background.generateCSV [[("a", .str "=1+1")]] none) =
      [["a"], [apostrophe ++ "=1+1"]] ∧
    stringTable [[("a", .str "=1+1")]] = [["a"], ["=1+1"]] ∧
    apostrophe ++ "=1+1" ≠ "=1+1" := by
  refine ⟨?_, rfl, by decide⟩
  decide

end AIDE
